import Mathlib

/-!
Verification development for the `does_ternary_emerge_naturally` repository.

The repository consists of two near-identical Python analysis scripts:
  * `validation_results/20250914_164227/comprehensive_analysis.py`
  * `validation_results/20250915_095830_COMPLETE/final_analysis.py`

Both read `*.log` files, extract `CSV_ROW,...` data lines and `# `-metadata
lines, aggregate the parsed rows, compute rates and binomial confidence
intervals, and emit a summary object.

Shallow-embedding conventions used throughout this file:
  * strings are `List Char` (`Str`), restricted to the ASCII fragment
    (Python's `str` methods and `re` are Unicode-aware; every string the
    scripts actually deal with is ASCII);
  * Python `float` values are modelled exactly as rationals `ℚ` (the scripts
    only parse decimal literals, divide counts, and compare; the rational
    model is the exact-arithmetic abstraction of IEEE doubles), and the
    confidence-interval formulas, which take a square root, are modelled
    over `ℝ`;
  * Python `int` is `ℤ`;
  * exceptions are modelled with `Except PyErr`; code that Python protects
    with `try`/`except` is folded into `Option`/total functions, and code
    whose exceptions are *not* caught is monadic in `Except PyErr`;
  * `print` calls are side effects with no observable output for the claims
    at hand; whenever a printed expression performs a division (which can
    raise `ZeroDivisionError`) the division itself is kept in the embedding,
    while the pure, total formatting around it is dropped.
-/

/-- Decidable equality of `Except` results (needed to evaluate the embedded
pipelines on concrete inputs inside proofs). -/
instance {e a : Type} [DecidableEq e] [DecidableEq a] : DecidableEq (Except e a) := fun x y =>
  match x, y with
  | .ok u, .ok v => if h : u = v then isTrue (by rw [h]) else isFalse (by simp [h])
  | .error u, .error v => if h : u = v then isTrue (by rw [h]) else isFalse (by simp [h])
  | .ok _, .error _ => isFalse (by simp)
  | .error _, .ok _ => isFalse (by simp)

/-- Python-style runtime errors that the scripts can raise and do not catch. -/
inductive PyErr where
  | valueError
  | zeroDivisionError
  | indexError
deriving DecidableEq, Repr

/-- Strings are modelled as lists of characters. -/
abbrev Str := List Char

/-- Coerce a Lean string literal into the `Str` model. -/
def str (s : String) : Str := s.toList

/-- ASCII whitespace, as recognised by Python's `str.split()`/`str.strip()`
(the Unicode whitespace code points never occur in the logs). -/
def isWsChar (c : Char) : Bool :=
  c == ' ' || c == '\t' || c == '\n' || c == '\r' || c == '\x0b' || c == '\x0c'

/-- ASCII decimal digit, as matched by `\d` and accepted by `int()`/`float()`
on the ASCII fragment. -/
def isDigitCh (c : Char) : Bool :=
  '0' ≤ c && c ≤ '9'

/-- ASCII word character, as matched by `\w` on the ASCII fragment. -/
def isWordCh (c : Char) : Bool :=
  isDigitCh c || ('a' ≤ c && c ≤ 'z') || ('A' ≤ c && c ≤ 'Z') || c == '_'

/-- Python `s.split(c)` for a one-character separator: `"".split(c) = [""]`,
separators at the ends produce empty fields. -/
def splitCh (c : Char) : Str → List Str
  | [] => [[]]
  | x :: xs =>
    let r := splitCh c xs
    if x = c then [] :: r
    else
      match r with
      | [] => [[x]]
      | y :: ys => (x :: y) :: ys

/-- Python `s.split(c, 1)` restricted to the case `c ∈ s`: the part before the
first separator and the part after it. -/
def splitOnce (c : Char) : Str → Str × Str
  | [] => ([], [])
  | x :: xs =>
    if x = c then ([], xs)
    else
      let r := splitOnce c xs
      (x :: r.1, r.2)

/-- Helper for `wsSplit`: accumulate the current (reversed) token. -/
def wsSplitAux (acc : Str) : Str → List Str
  | [] => if acc = [] then [] else [acc.reverse]
  | x :: xs =>
    if isWsChar x then
      if acc = [] then wsSplitAux [] xs else acc.reverse :: wsSplitAux [] xs
    else wsSplitAux (x :: acc) xs

/-- Python `s.split()` (no argument): split on whitespace runs, dropping
empty tokens. -/
def wsSplit (l : Str) : List Str := wsSplitAux [] l

/-- Python `s.strip()` on the ASCII fragment. -/
def trimWs (l : Str) : Str :=
  ((l.dropWhile isWsChar).reverse.dropWhile isWsChar).reverse

/-- Value of a string of decimal digits. -/
def natOfDigits (l : Str) : ℕ :=
  l.foldl (fun n c => 10 * n + (c.toNat - 48)) 0

/-- Read an optional leading sign, returning the sign and the rest. -/
def readSign : Str → ℤ × Str
  | '+' :: xs => (1, xs)
  | '-' :: xs => (-1, xs)
  | xs => (1, xs)

/-- Python `int(s)` on the ASCII fragment: strip whitespace, optional sign,
then one or more decimal digits (digit-group underscores, accepted by CPython,
never occur in the logs and are not modelled).  `none` models a raised
`ValueError`. -/
def pyInt (l : Str) : Option ℤ :=
  let t := trimWs l
  let s := readSign t
  let d := s.2.span isDigitCh
  if d.1 = [] ∨ d.2 ≠ [] then none
  else some (s.1 * (natOfDigits d.1 : ℤ))

/-- The optional exponent suffix of a Python float literal (`e`/`E`, sign,
digits), applied to the empty rest as exponent `0`. -/
def expPart : Str → Option ℤ
  | [] => some 0
  | c :: rest =>
    if c = 'e' ∨ c = 'E' then
      let s := readSign rest
      let d := s.2.span isDigitCh
      if d.1 = [] ∨ d.2 ≠ [] then none else some (s.1 * (natOfDigits d.1 : ℤ))
    else none

/-- The exact rational value `sgn · mant · 10^k`.  It is assembled with
`Rat.divInt` (which the kernel evaluates) instead of the `@[irreducible]`
field operations of `ℚ`; `ratVal_eq` states the intended value. -/
def ratVal (sgn : ℤ) (mant : ℕ) (k : ℤ) : ℚ :=
  if 0 ≤ k then Rat.divInt (sgn * (mant : ℤ) * 10 ^ k.toNat) 1
  else Rat.divInt (sgn * (mant : ℤ)) (10 ^ (-k).toNat)

/-- Python `float(s)` on finite ASCII decimal literals, valued exactly in `ℚ`:
strip whitespace, optional sign, integer digits with optional fraction
(at least one digit overall) and optional exponent; the value is
`sign · digits · 10^(exponent - fraction length)`.  (`inf`/`nan` and
digit-group underscores never occur in the logs and are not modelled;
`none` models a raised `ValueError`.) -/
def pyFloat (l : Str) : Option ℚ :=
  let t := trimWs l
  let s := readSign t
  let ipr := s.2.span isDigitCh
  match ipr.2 with
  | '.' :: r2 =>
    let fpr := r2.span isDigitCh
    if ipr.1 = [] ∧ fpr.1 = [] then none
    else
      match expPart fpr.2 with
      | some e => some (ratVal s.1 (natOfDigits (ipr.1 ++ fpr.1)) (e - fpr.1.length))
      | none => none
  | r1 =>
    if ipr.1 = [] then none
    else
      match expPart r1 with
      | some e => some (ratVal s.1 (natOfDigits ipr.1) e)
      | none => none

/-- `isPre p l`: `p` is a prefix of `l`. -/
def isPre : Str → Str → Bool
  | [], _ => true
  | _ :: _, [] => false
  | x :: xs, y :: ys => x == y && isPre xs ys

/-- Python `sub in l` (substring containment): `sub` is a prefix of some
suffix of `l`. -/
def hasSub : Str → Str → Bool
  | [], sub => isPre sub []
  | x :: rest, sub => isPre sub (x :: rest) || hasSub rest sub

/-- Python `l.startswith(p)`. -/
def strStartsWith (l p : Str) : Bool := isPre p l

/-- Attempt to match the regex `\((\d+)/(\d+)\)` at the head of the string
(the groups are maximal digit runs; as the character after `\d+` can never be
a digit, greedy matching needs no backtracking here). -/
def matchFrac : Str → Option (ℤ × ℤ)
  | '(' :: r =>
    if (r.span isDigitCh).1 = [] then none
    else
      match (r.span isDigitCh).2 with
      | '/' :: r2 =>
        if (r2.span isDigitCh).1 = [] then none
        else
          match (r2.span isDigitCh).2 with
          | ')' :: _ =>
            some ((natOfDigits (r.span isDigitCh).1 : ℤ), (natOfDigits (r2.span isDigitCh).1 : ℤ))
          | _ => none
      | _ => none
  | _ => none

/-- Python `re.search(r'\((\d+)/(\d+)\)', l)`: the leftmost match (every match
starts with `'('`, so scanning each start position suffices). -/
def firstFrac : Str → Option (ℤ × ℤ)
  | [] => none
  | c :: rest =>
    match matchFrac (c :: rest) with
    | some v => some v
    | none => firstFrac rest

/-- A metadata value: Python stores either an `int` or a `str` in the
per-file metadata dict. -/
inductive MetaVal where
  | i (n : ℤ)
  | s (v : Str)
deriving DecidableEq, Repr

/-- A Python dict with string keys, modelled as an association list in
insertion order (assignment to an existing key keeps its position,
assignment to a new key appends). -/
abbrev Dict (α : Type) := List (Str × α)

/-- Python dict assignment `d[k] = v`. -/
def dictSet {α : Type} (d : Dict α) (k : Str) (v : α) : Dict α :=
  if d.any (fun p => decide (p.1 = k)) then
    d.map (fun p => if p.1 = k then (k, v) else p)
  else d ++ [(k, v)]

/-- Python `d.get(k, default)`. -/
def dictGet {α : Type} (d : Dict α) (k : Str) (dflt : α) : α :=
  match d.find? (fun p => decide (p.1 = k)) with
  | some p => p.2
  | none => dflt

/-- The per-file metadata mapping. -/
abbrev Md := Dict MetaVal

/-- One parsed `CSV_ROW` data row (dict in the source).  `experiment`,
`optimizer`, `fitness`, `energy_model` are the tags added later during
aggregation (the final-variant adds the last three); they default to the
"key absent" placeholders. -/
structure Row where
  sigma : ℚ
  energy_zero : ℚ
  energy_abs1 : ℚ
  n_states : ℤ
  hysteresis : Bool
  consensus : Option (ℤ × ℤ)
  experiment : Str := []
  optimizer : MetaVal := .s []
  fitness : MetaVal := .s []
  energy_model : MetaVal := .s []
deriving DecidableEq, Repr

/-- The `CSV_ROW` branch body shared verbatim by both scripts: split the line
on commas; with at least 5 fields, parse fields 1-3 as floats and field 4 as
an int (the `try` block: any failure yields no row), rejoin the remainder,
test for the `[H]` marker and search for the `(successes/trials)` pattern. -/
def csvRow? (l : Str) : Option Row :=
  if 5 ≤ (splitCh ',' l).length then
    match pyFloat ((splitCh ',' l).getD 1 []), pyFloat ((splitCh ',' l).getD 2 []),
          pyFloat ((splitCh ',' l).getD 3 []), pyInt ((splitCh ',' l).getD 4 []) with
    | some sg, some e0, some e1, some ns =>
      some { sigma := sg, energy_zero := e0, energy_abs1 := e1, n_states := ns,
             hysteresis := hasSub (List.intercalate (str ",") ((splitCh ',' l).drop 5)) (str "[H]"),
             consensus := firstFrac (List.intercalate (str ",") ((splitCh ',' l).drop 5)) }
    | _, _, _, _ => none
  else none

/-- Python `tokens[-1]` (raises `IndexError` on an empty list). -/
def lastTok (l : Str) : Except PyErr Str :=
  match (wsSplit l).getLast? with
  | some t => .ok t
  | none => .error .indexError

/-- One `key=value` token of a parameter-echo line in
`comprehensive_analysis.py`: `metadata[key] = int(value) if value.isdigit()
else value` (on ASCII input `int` cannot fail when `isdigit` holds, so the
surrounding `try`/`except` is dead). -/
def mdSetKV_c (md : Md) (tok : Str) : Md :=
  if hasSub tok (str "=") then
    let kv := splitOnce '=' tok
    dictSet md kv.1
      (if kv.2 ≠ [] ∧ kv.2.all isDigitCh then .i (natOfDigits kv.2 : ℤ) else .s kv.2)
  else md

/-- One `key=value` token of a parameter-echo line in `final_analysis.py`:
only the keys `optimizer`, `fitness`, `energy_model` are stored, always as
strings. -/
def mdSetKV_f (md : Md) (tok : Str) : Md :=
  if hasSub tok (str "=") then
    let kv := splitOnce '=' tok
    if kv.1 = str "optimizer" ∨ kv.1 = str "fitness" ∨ kv.1 = str "energy_model" then
      dictSet md kv.1 (.s kv.2)
    else md
  else md

/-- Python `re.search(r'--sweep-xxx=(\w+)', cmd)` specialised to a literal
flag followed by `(\w+)`: the leftmost position where the flag occurs
followed by at least one word character, returning the maximal word run. -/
def sweepFlag (flag : Str) : Str → Option Str
  | [] => none
  | c :: rest =>
    if isPre flag (c :: rest) then
      let after := (c :: rest).drop flag.length
      let w := after.span isWordCh
      if w.1 ≠ [] then some w.1 else sweepFlag flag rest
    else sweepFlag flag rest

/-- Processing of one line by `parse_csv_rows_from_log` in
`comprehensive_analysis.py`: the `if`/`elif` classification chain, returning
the rows contributed by the line and the updated metadata, or the uncaught
error it raises.  Note the chain order: a `CSV_ROW` line containing both
`gens=` and `pop=` is captured by the parameter-echo branch. -/
def lineStep_c (md : Md) (l : Str) : Except PyErr (List Row × Md) :=
  if strStartsWith l (str "# ") then
    if hasSub l (str "Seeds:") then
      match lastTok l with
      | .error e => .error e
      | .ok t =>
        match pyInt t with
        | some n => .ok ([], dictSet md (str "seeds") (.i n))
        | none => .error .valueError
    else if hasSub l (str "Command:") then
      .ok ([], dictSet md (str "command") (.s (trimWs (l.drop 2))))
    else .ok ([], md)
  else if hasSub l (str "gens=") && hasSub l (str "pop=") then
    .ok ([], (wsSplit l).foldl mdSetKV_c md)
  else if strStartsWith l (str "CSV_ROW,") then
    .ok ((csvRow? l).toList, md)
  else .ok ([], md)

/-- Processing of one line by `parse_csv_rows_from_log` in
`final_analysis.py`.  The `Command:` branch additionally extracts
`--sweep-optimizer=`/`--sweep-fitness=` flag values; the parameter-echo
branch triggers on `optimizer=` together with `fitness=`. -/
def lineStep_f (md : Md) (l : Str) : Except PyErr (List Row × Md) :=
  if strStartsWith l (str "# ") then
    if hasSub l (str "Seeds:") then
      match lastTok l with
      | .error e => .error e
      | .ok t =>
        match pyInt t with
        | some n => .ok ([], dictSet md (str "seeds") (.i n))
        | none => .error .valueError
    else if hasSub l (str "Command:") then
      let cmd := trimWs (l.drop 2)
      let md1 := if hasSub cmd (str "--sweep-optimizer=") then
          dictSet md (str "optimizer")
            (.s ((sweepFlag (str "--sweep-optimizer=") cmd).getD (str "ga")))
        else md
      let md2 := if hasSub cmd (str "--sweep-fitness=") then
          dictSet md1 (str "fitness")
            (.s ((sweepFlag (str "--sweep-fitness=") cmd).getD (str "task")))
        else md1
      .ok ([], dictSet md2 (str "command") (.s cmd))
    else .ok ([], md)
  else if hasSub l (str "optimizer=") && hasSub l (str "fitness=") then
    .ok ([], (wsSplit l).foldl mdSetKV_f md)
  else if strStartsWith l (str "CSV_ROW,") then
    .ok ((csvRow? l).toList, md)
  else .ok ([], md)

/-- The rows contributed by a single line (no line appends rows through the
metadata branches). -/
def lineRows_c (l : Str) : List Row :=
  if strStartsWith l (str "# ") then []
  else if hasSub l (str "gens=") && hasSub l (str "pop=") then []
  else if strStartsWith l (str "CSV_ROW,") then (csvRow? l).toList
  else []

/-- The rows contributed by a single line in the final variant. -/
def lineRows_f (l : Str) : List Row :=
  if strStartsWith l (str "# ") then []
  else if hasSub l (str "optimizer=") && hasSub l (str "fitness=") then []
  else if strStartsWith l (str "CSV_ROW,") then (csvRow? l).toList
  else []

/-- The line loop of `parse_csv_rows_from_log`, accumulating rows and
threading the metadata dict; the first uncaught error aborts the loop. -/
def parseLines (step : Md → Str → Except PyErr (List Row × Md)) :
    List Str → List Row → Md → Except PyErr (List Row × Md)
  | [], rows, md => .ok (rows, md)
  | l :: ls, rows, md =>
    match step md l with
    | .error e => .error e
    | .ok rm => parseLines step ls (rows ++ rm.1) rm.2

/-- `parse_csv_rows_from_log` of `comprehensive_analysis.py`: split the
content on newlines and run the classification chain over every line. -/
def parse_csv_rows_from_log_c (content : Str) : Except PyErr (List Row × Md) :=
  parseLines lineStep_c (splitCh '\n' content) [] []

/-- `parse_csv_rows_from_log` of `final_analysis.py`. -/
def parse_csv_rows_from_log_f (content : Str) : Except PyErr (List Row × Md) :=
  parseLines lineStep_f (splitCh '\n' content) [] []

/-- `calculate_confidence_interval` of `comprehensive_analysis.py` (normal /
Wald approximation), over exact reals: `p = successes/trials`, `z = 1.96`,
`margin = z * sqrt(p*(1-p)/trials)`, clamped to `[0,1]`; `(0,0)` when
`trials == 0`.  (The callers only ever pass `successes ≤ trials`; Python's
`** 0.5` on a negative radicand would leave the reals, while `Real.sqrt`
returns 0 there.) -/
noncomputable def calculate_confidence_interval_c (successes trials : ℕ) : ℝ × ℝ :=
  if trials = 0 then (0, 0) else
    (max 0 ((successes : ℝ) / trials -
        1.96 * Real.sqrt ((successes : ℝ) / trials * (1 - (successes : ℝ) / trials) / trials)),
     min 1 ((successes : ℝ) / trials +
        1.96 * Real.sqrt ((successes : ℝ) / trials * (1 - (successes : ℝ) / trials) / trials)))

/-- `calculate_confidence_interval` of `final_analysis.py` (Wilson score
interval): `denominator = 1 + z²/trials`, `centre = (p + z²/(2·trials)) /
denominator`, `margin = z * sqrt((p*(1-p) + z²/(4·trials))/trials) /
denominator`, clamped to `[0,1]`; `(0,0)` when `trials == 0`. -/
noncomputable def calculate_confidence_interval_f (successes trials : ℕ) : ℝ × ℝ :=
  if trials = 0 then (0, 0) else
    (max 0 (((successes : ℝ) / trials + 1.96 ^ 2 / (2 * trials)) / (1 + 1.96 ^ 2 / trials) -
        1.96 * Real.sqrt (((successes : ℝ) / trials * (1 - (successes : ℝ) / trials) +
            1.96 ^ 2 / (4 * trials)) / trials) / (1 + 1.96 ^ 2 / trials)),
     min 1 (((successes : ℝ) / trials + 1.96 ^ 2 / (2 * trials)) / (1 + 1.96 ^ 2 / trials) +
        1.96 * Real.sqrt (((successes : ℝ) / trials * (1 - (successes : ℝ) / trials) +
            1.96 ^ 2 / (4 * trials)) / trials) / (1 + 1.96 ^ 2 / trials)))

/-- Exact rational division, written with `Rat.divInt` so that the kernel can
evaluate it (`ratDiv_eq_div` below states that it agrees with `/` on `ℚ`). -/
def ratDiv (a b : ℚ) : ℚ :=
  Rat.divInt (a.num * (b.den : ℤ)) ((a.den : ℤ) * b.num)

/-- Python `/` on numbers (true division): raises `ZeroDivisionError` on a
zero divisor. -/
def pydiv (a b : ℚ) : Except PyErr ℚ :=
  if b = 0 then .error .zeroDivisionError else .ok (ratDiv a b)

/-- Python `l[i]` on a list: `IndexError` when out of range (negative indices
never occur at the modelled call sites). -/
def pyGet (l : List Str) (i : ℕ) : Except PyErr Str :=
  match l.get? i with
  | some x => .ok x
  | none => .error .indexError

/-- `pathlib.Path(name).stem` for the simple `*.log` file names produced by
glob: drop the last dot-extension; a name without a dot past position 0 is
its own stem. -/
def stem (name : Str) : Str :=
  let r := (name.reverse).span (fun c => !(c == '.'))
  match r.2 with
  | [] => name
  | _ :: rest => if rest = [] then name else rest.reverse

/-- The key order of a `collections.Counter` built from a traversal: keys in
order of first occurrence. -/
def counterKeys (l : List ℤ) : List ℤ :=
  l.foldl (fun acc x => if x ∈ acc then acc else acc ++ [x]) []

/-- `dict(Counter(...))`: keys in first-occurrence order with their counts. -/
def orderedCounter (l : List ℤ) : List (ℤ × ℕ) :=
  (counterKeys l).map (fun k => (k, (l.filter (fun x => decide (x = k))).length))

/-- Insert into a `≤`-sorted list of rationals. -/
def insertQ (x : ℚ) : List ℚ → List ℚ
  | [] => [x]
  | y :: ys => if x ≤ y then x :: y :: ys else y :: insertQ x ys

/-- Python `sorted` on rationals (the float keys of a dict). -/
def sortQ (l : List ℚ) : List ℚ := l.foldr insertQ []

/-- Insert into a sorted list of integers. -/
def insertZ (x : ℤ) : List ℤ → List ℤ
  | [] => [x]
  | y :: ys => if x ≤ y then x :: y :: ys else y :: insertZ x ys

/-- Python `sorted` on integers (the `n_states` keys of a Counter). -/
def sortZ (l : List ℤ) : List ℤ := l.foldr insertZ []

/-- Code-point-wise `≤` on strings (Python string comparison). -/
def strLe : Str → Str → Bool
  | [], _ => true
  | _ :: _, [] => false
  | x :: xs, y :: ys => if x = y then strLe xs ys else decide (x < y)

/-- Insert into a sorted list of strings. -/
def insertS (x : Str) : List Str → List Str
  | [] => [x]
  | y :: ys => if strLe x y then x :: y :: ys else y :: insertS x ys

/-- Python `sorted` on strings (file names, energy-model keys). -/
def sortStrs (l : List Str) : List Str := l.foldr insertS []

/-- Append a row to the entry of `k` in a `defaultdict(list)` modelled as an
association list in insertion order. -/
def groupAppend {κ : Type} [DecidableEq κ] (acc : List (κ × List Row)) (k : κ) (r : Row) :
    List (κ × List Row) :=
  if acc.any (fun p => decide (p.1 = k)) then
    acc.map (fun p => if p.1 = k then (p.1, p.2 ++ [r]) else p)
  else acc ++ [(k, [r])]

/-- Look up a group by key (empty when absent; keys always come from the
groups themselves). -/
def groupRows {κ : Type} [DecidableEq κ] (gs : List (κ × List Row)) (k : κ) : List Row :=
  match gs.find? (fun p => decide (p.1 = k)) with
  | some p => p.2
  | none => []

/-- `sum(r['consensus'][1] for r in rows if r['consensus'])`: the summed
trial counts of the rows that carry a consensus pair (a tuple is always
truthy, `None` is falsy). -/
def sumTrials (rows : List Row) : ℤ :=
  (rows.filterMap (fun r => r.consensus.map (fun p => p.2))).sum

/-- Number of rows with `n_states == k`. -/
def countStates (rows : List Row) (k : ℤ) : ℕ :=
  (rows.filter (fun r => decide (r.n_states = k))).length

/-- Count lookup in a `dict(Counter(...))` list. -/
def countLookup (sc : List (ℤ × ℕ)) (k : ℤ) : ℕ :=
  match sc.find? (fun p => decide (p.1 = k)) with
  | some p => p.2
  | none => 0

/-- A division whose quotient is only printed: keep the possible
`ZeroDivisionError`, drop the value. -/
def divCheck (a b : ℚ) : Except PyErr Unit :=
  match pydiv a b with
  | .error e => .error e
  | .ok _ => .ok ()

/-- The H2 grouping `energy_groups = defaultdict(list)` keyed by
`energy_zero`, in insertion order. -/
def h2_groups (cont_base : List Row) : List (ℚ × List Row) :=
  cont_base.foldl (fun acc r => groupAppend acc r.energy_zero r) []

/-- `sorted(energy_groups.keys())`: the distinct `energy_zero` values in
ascending order. -/
def h2_keys (cont_base : List Row) : List ℚ :=
  sortQ ((h2_groups cont_base).map (fun p => p.1))

/-- `ternary_count / total if total > 0 else 0` for one energy group. -/
def h2_rate (rows : List Row) : ℚ :=
  if 0 < rows.length then (countStates rows 3 : ℚ) / (rows.length : ℚ) else 0

/-- The per-group ternary rates of the H2 block, taken in ascending order of
`energy_zero` (exactly the sequence the loop at lines 156-167 traverses). -/
def h2_rates (cont_base : List Row) : List ℚ :=
  (h2_keys cont_base).map (fun k => h2_rate (groupRows (h2_groups cont_base) k))

/-- The `declining`/`prev_ternary_rate` accumulator of the H2 loop:
`declining` is cleared whenever the current rate exceeds the previous one. -/
def h2_fold : Option ℚ → Bool → List ℚ → Bool
  | _, d, [] => d
  | prev, d, r :: rest =>
    h2_fold (some r)
      (if (match prev with | some p => decide (p < r) | none => false) then false else d)
      rest

/-- The H2 `declining` verdict over a rate sequence (PASS iff `true`). -/
def h2_declining (rates : List ℚ) : Bool := h2_fold none true rates

/-- Final value of the Python local `total` after the H2 loop: the loop ran
(`cont_base` non-empty) iff it reassigned `total` to the size of the last
(`max`-key) group. -/
def h2_last_total (cont_base : List Row) (t : ℕ) : ℕ :=
  match (h2_keys cont_base).getLast? with
  | some k => (groupRows (h2_groups cont_base) k).length
  | none => t

/-- The state-distribution print loop of `comprehensive_analysis.py`
(lines 112-116): `pct = 100 * count / total` per sorted state key. -/
def stateLoop_c (sc : List (ℤ × ℕ)) (total : ℕ) : Except PyErr Unit :=
  (sortZ (sc.map (fun p => p.1))).foldlM (fun _ k =>
    divCheck (100 * (countLookup sc k : ℚ)) (total : ℚ)) ()

/-- The H1 block of `comprehensive_analysis.py` (lines 124-144): both rate
divisions run only under the two non-emptiness guards; the confidence
intervals (total real-valued functions) are print-only. -/
def h1Block_c (all_data : List Row) : Except PyErr Unit :=
  let cont_data := all_data.filter (fun r => hasSub r.experiment (str "cont_"))
  if cont_data.isEmpty then .ok ()
  else
    let low_noise := cont_data.filter (fun r => decide (r.sigma ≤ Rat.divInt 3 10))
    if low_noise.isEmpty then .ok ()
    else do
      let _ ← divCheck (countStates low_noise 3 : ℚ) (low_noise.length : ℚ)
      divCheck (countStates low_noise 2 : ℚ) (low_noise.length : ℚ)

/-- The H3 block of `comprehensive_analysis.py` (lines 173-185). -/
def h3Block_c (all_data : List Row) : Except PyErr Unit :=
  let bd := all_data.filter (fun r => hasSub r.experiment (str "binary_"))
  if bd.isEmpty then .ok ()
  else divCheck (countStates bd 2 : ℚ) (bd.length : ℚ)

/-- The nested `get_rates` helper (lines 196-200): two divisions by
`len(data)`. -/
def getRates_div (data : List Row) : Except PyErr Unit := do
  let _ ← divCheck (countStates data 3 : ℚ) (data.length : ℚ)
  divCheck (countStates data 2 : ℚ) (data.length : ℚ)

/-- The convergence-analysis block (lines 190-206): per experiment base,
`get_rates` runs on the g120 and g480 subsets only when both are non-empty. -/
def convBlock_c (all_data : List Row) : Except PyErr Unit :=
  [str "cont_base", str "cont_leak", str "binary", str "discrete"].foldlM (fun _ base =>
    let g120 := all_data.filter (fun r => hasSub r.experiment (base ++ str "_g120"))
    let g480 := all_data.filter (fun r => hasSub r.experiment (base ++ str "_g480"))
    if g120.isEmpty || g480.isEmpty then .ok ()
    else do
      let _ ← getRates_div g120
      getRates_div g480) ()

/-- The population-effects block (lines 209-216). -/
def popBlock_c (all_data : List Row) : Except PyErr Unit :=
  let pop_data := all_data.filter (fun r => hasSub r.experiment (str "convergence_pop"))
  if pop_data.isEmpty then .ok ()
  else
    [str "pop40", str "pop200"].foldlM (fun _ p =>
      let subset := pop_data.filter (fun r => hasSub r.experiment p)
      if subset.isEmpty then .ok ()
      else divCheck (countStates subset 3 : ℚ) (subset.length : ℚ)) ()

/-- The grouping loop of the ablation block (lines 224-227):
`model = row['experiment'].split('_')[1]` can raise `IndexError`. -/
def ablGroups (rows : List Row) : Except PyErr (List (Str × List Row)) :=
  rows.foldlM (fun acc r =>
    match pyGet (splitCh '_' r.experiment) 1 with
    | .error e => .error e
    | .ok m => .ok (groupAppend acc m r)) []

/-- The ablation block of `comprehensive_analysis.py` (lines 221-239): two
divisions per sorted model key; the loop reassigns the Python local `total`
to the size of each group, so the final value is returned. -/
def ablBlock_c (all_data : List Row) (total : ℕ) : Except PyErr ℕ :=
  let abl := all_data.filter (fun r => hasSub r.experiment (str "ablation_"))
  if abl.isEmpty then .ok total
  else
    match ablGroups abl with
    | .error e => .error e
    | .ok gs =>
      (sortStrs (gs.map (fun p => p.1))).foldlM (fun _ k =>
        let rows := groupRows gs k
        do
          let _ ← divCheck (countStates rows 3 : ℚ) (rows.length : ℚ)
          let _ ← divCheck (countStates rows 2 : ℚ) (rows.length : ℚ)
          .ok rows.length) total

/-- The experiment-summary print loop (lines 244-256):
`size_kb = os.path.getsize(log_file) / 1024`, with the file size modelled as
the content length. -/
def summaryPrint_c (files : List (Str × Str)) (exps : Dict (List Row × Md)) :
    Except PyErr Unit :=
  (sortStrs (files.map (fun p => p.1))).foldlM (fun _ name =>
    if exps.any (fun p => decide (p.1 = stem name)) then
      divCheck (((files.find? (fun p => decide (p.1 = name))).elim 0
        (fun p => (p.2.length : ℚ)))) 1024
    else .ok ()) ()

/-- One iteration of the aggregation loop of `analyze_results` (lines 84-94):
parse the file, tag every row with the file stem, extend `all_data` and
`experiments` (the stored `data` list aliases the tagged rows). -/
def aggStep_c (acc : List Row × Dict (List Row × Md)) (file : Str × Str) :
    Except PyErr (List Row × Dict (List Row × Md)) :=
  match parse_csv_rows_from_log_c file.2 with
  | .error e => .error e
  | .ok rm =>
    let en := stem file.1
    let tagged := rm.1.map (fun r => { r with experiment := en })
    .ok (acc.1 ++ tagged, dictSet acc.2 en (tagged, rm.2))

/-- The `summary_data` object `comprehensive_analysis.py` serialises as
`validation_summary.json` (lines 259-266); field order and the element order
of `state_distribution` and `experiments` model the JSON key order. -/
structure SummaryC where
  total_experiments : ℕ
  total_combinations : ℕ
  state_distribution : List (ℤ × ℕ)
  hysteresis_rate : ℚ
  experiments : Dict (ℕ × Md)
deriving DecidableEq, Repr

/-- Outcome of a run of `analyze_results`: early return with the
"No log files found" message, early return with "No valid data found"
(in both cases no JSON is written and no report sections are printed),
or a full report with the serialised summary. -/
inductive OutcomeC where
  | noFiles
  | noData
  | report (s : SummaryC)
deriving DecidableEq, Repr

/-- `analyze_results` of `comprehensive_analysis.py` as a function of the
glob result (file name and content, in enumeration order).  Print-only
confidence intervals are omitted (they are total); every division and
indexing operation of the source is retained. -/
def analyze_results (files : List (Str × Str)) : Except PyErr OutcomeC :=
  if files.isEmpty then .ok OutcomeC.noFiles
  else
    match files.foldlM aggStep_c ([], []) with
    | .error e => .error e
    | .ok agg =>
      let all_data := agg.1
      let exps := agg.2
      if all_data.isEmpty then .ok OutcomeC.noData
      else do
        let _ ← divCheck (sumTrials all_data : ℚ)
          (((all_data.filter (fun r => r.consensus.isSome)).length : ℚ))
        let total0 := all_data.length
        let sc := orderedCounter (all_data.map Row.n_states)
        let hcount := (all_data.filter (fun r => r.hysteresis)).length
        let _ ← stateLoop_c sc total0
        let _ ← divCheck (100 * (hcount : ℚ)) (total0 : ℚ)
        let _ ← h1Block_c all_data
        let cont_base := all_data.filter (fun r =>
          hasSub r.experiment (str "cont_base") && decide (r.sigma = Rat.divInt 1 10))
        let _h2verdict := if cont_base.isEmpty then none
          else some (h2_declining (h2_rates cont_base))
        let totalH2 := if cont_base.isEmpty then total0 else h2_last_total cont_base total0
        let _ ← h3Block_c all_data
        let _ ← convBlock_c all_data
        let _ ← popBlock_c all_data
        let totalAbl ← ablBlock_c all_data totalH2
        let _ ← summaryPrint_c files exps
        match pydiv (hcount : ℚ) (totalAbl : ℚ) with
        | .error e => .error e
        | .ok hr =>
          .ok (OutcomeC.report {
            total_experiments := files.length
            total_combinations := all_data.length
            state_distribution := sc
            hysteresis_rate := hr
            experiments := exps.map (fun p => (p.1, (p.2.1.length, p.2.2))) })

/-- Python `==` between a metadata value and a string literal (an `int`
value never equals a string). -/
def mvEqS (v : MetaVal) (t : Str) : Bool :=
  match v with
  | .s u => decide (u = t)
  | .i _ => false

/-- The state-distribution loop of `final_analysis.py` (lines 123-128):
`rate = count / total` per sorted state key. -/
def stateLoop_f (sc : List (ℤ × ℕ)) (total : ℕ) : Except PyErr Unit :=
  (sortZ (sc.map (fun p => p.1))).foldlM (fun _ k =>
    divCheck ((countLookup sc k : ℚ)) (total : ℚ)) ()

/-- The H1 block of `final_analysis.py` (lines 132-153): per optimizer, two
rate divisions under the non-emptiness guard. -/
def h1Block_f (all_data : List Row) : Except PyErr Unit :=
  let cont_data := all_data.filter (fun r =>
    hasSub r.experiment (str "cont_") && decide (r.sigma ≤ Rat.divInt 3 10))
  [str "ga", str "random", str "cmaes"].foldlM (fun _ opt =>
    let od := cont_data.filter (fun r => mvEqS r.optimizer opt)
    if od.isEmpty then .ok ()
    else do
      let _ ← divCheck (countStates od 3 : ℚ) (od.length : ℚ)
      divCheck (countStates od 2 : ℚ) (od.length : ℚ)) ()

/-- The H3 block of `final_analysis.py` (lines 156-169). -/
def h3Block_f (all_data : List Row) : Except PyErr Unit :=
  let bd := all_data.filter (fun r => hasSub r.experiment (str "binary_"))
  if bd.isEmpty then .ok ()
  else
    [str "ga", str "random", str "cmaes"].foldlM (fun _ opt =>
      let od := bd.filter (fun r => mvEqS r.optimizer opt)
      if od.isEmpty then .ok ()
      else divCheck (countStates od 2 : ℚ) (od.length : ℚ)) ()

/-- The H5 block of `final_analysis.py` (lines 174-188): one rate division
per fitness kind under the guards. -/
def h5Block_f (all_data : List Row) : Except PyErr Unit :=
  let fd := all_data.filter (fun r => hasSub r.experiment (str "fitness_"))
  if fd.isEmpty then .ok ()
  else
    [str "task", str "reg", str "info"].foldlM (fun _ fit =>
      let fdata := fd.filter (fun r => mvEqS r.fitness fit)
      if fdata.isEmpty then .ok ()
      else divCheck (countStates fdata 3 : ℚ) (fdata.length : ℚ)) ()

/-- The energy-model robustness block of `final_analysis.py`
(lines 193-202). -/
def emBlock_f (all_data : List Row) : Except PyErr Unit :=
  [str "base", str "asym", str "leak"].foldlM (fun _ em =>
    let mdata := all_data.filter (fun r =>
      hasSub r.experiment (str "cont_") && mvEqS r.energy_model em)
    if mdata.isEmpty then .ok ()
    else divCheck (countStates mdata 3 : ℚ) (mdata.length : ℚ)) ()

/-- One iteration of the aggregation loop of `analyze_final_results`
(lines 93-106): tag each row with the file stem and the metadata-derived
`optimizer`/`fitness`/`energy_model` (defaults `ga`/`task`/`base`). -/
def aggStep_f (acc : List Row × Dict (List Row × Md)) (file : Str × Str) :
    Except PyErr (List Row × Dict (List Row × Md)) :=
  match parse_csv_rows_from_log_f file.2 with
  | .error e => .error e
  | .ok rm =>
    let en := stem file.1
    let tagged := rm.1.map (fun r => { r with
      experiment := en,
      optimizer := dictGet rm.2 (str "optimizer") (.s (str "ga")),
      fitness := dictGet rm.2 (str "fitness") (.s (str "task")),
      energy_model := dictGet rm.2 (str "energy_model") (.s (str "base")) })
    .ok (acc.1 ++ tagged, dictSet acc.2 en (tagged, rm.2))

/-- The `summary_data` object `final_analysis.py` serialises as
`final_validation_summary.json` (lines 242-252). -/
structure SummaryF where
  total_experiments : ℕ
  total_combinations : ℕ
  state_distribution : List (ℤ × ℕ)
  continuous_ternary_rate : ℚ
  discrete_ternary_rate : ℚ
  binary_constraint_rate : ℚ
  optimizer_consistency : Bool
  experiments : Dict (ℕ × Md)
deriving DecidableEq, Repr

/-- Outcome of a run of `analyze_final_results` (mirrors `OutcomeC`). -/
inductive OutcomeF where
  | noFiles
  | noData
  | report (s : SummaryF)
deriving DecidableEq, Repr

/-- `analyze_final_results` of `final_analysis.py` as a function of the glob
result.  The three conclusion rates (lines 222-224) divide by category row
counts with no emptiness guard. -/
def analyze_final_results (files : List (Str × Str)) : Except PyErr OutcomeF :=
  if files.isEmpty then .ok OutcomeF.noFiles
  else
    match files.foldlM aggStep_f ([], []) with
    | .error e => .error e
    | .ok agg =>
      let all_data := agg.1
      let exps := agg.2
      if all_data.isEmpty then .ok OutcomeF.noData
      else do
        let _ ← divCheck (sumTrials all_data : ℚ)
          (((all_data.filter (fun r => r.consensus.isSome)).length : ℚ))
        let total := all_data.length
        let sc := orderedCounter (all_data.map Row.n_states)
        let _ ← stateLoop_f sc total
        let _ ← h1Block_f all_data
        let _ ← h3Block_f all_data
        let _ ← h5Block_f all_data
        let _ ← emBlock_f all_data
        let cont := all_data.filter (fun r => hasSub r.experiment (str "cont_"))
        let disc := all_data.filter (fun r => hasSub r.experiment (str "discrete_"))
        let bins := all_data.filter (fun r => hasSub r.experiment (str "binary_"))
        let ctr ← pydiv (countStates cont 3 : ℚ) (cont.length : ℚ)
        let dtr ← pydiv (countStates disc 3 : ℚ) (disc.length : ℚ)
        let bcr ← pydiv (countStates bins 2 : ℚ) (bins.length : ℚ)
        let optCons := [str "ga", str "random", str "cmaes"].all (fun opt =>
          decide ((all_data.filter (fun r => hasSub r.experiment (str "cont_") &&
            mvEqS r.optimizer opt && decide (r.n_states = 3))).length = 0))
        .ok (OutcomeF.report {
          total_experiments := files.length
          total_combinations := all_data.length
          state_distribution := orderedCounter (all_data.map Row.n_states)
          continuous_ternary_rate := ctr
          discrete_ternary_rate := dtr
          binary_constraint_rate := bcr
          optimizer_consistency := optCons
          experiments := exps.map (fun p => (p.1, (p.2.1.length, p.2.2))) })

/-- The tagged rows one file contributes to `all_data` in
`analyze_results` (empty if its parse raises; the aggregation then aborts
anyway). -/
def fileRows_c (file : Str × Str) : List Row :=
  match parse_csv_rows_from_log_c file.2 with
  | .ok rm => rm.1.map (fun r => { r with experiment := stem file.1 })
  | .error _ => []

/-- The tagged rows one file contributes to `all_data` in
`analyze_final_results`. -/
def fileRows_f (file : Str × Str) : List Row :=
  match parse_csv_rows_from_log_f file.2 with
  | .ok rm => rm.1.map (fun r => { r with
      experiment := stem file.1,
      optimizer := dictGet rm.2 (str "optimizer") (.s (str "ga")),
      fitness := dictGet rm.2 (str "fitness") (.s (str "task")),
      energy_model := dictGet rm.2 (str "energy_model") (.s (str "base")) })
  | .error _ => []

/-- A concrete log file (one valid data row, `n_states = 2`), used to
exercise glob-order dependence of the summary. -/
def logA : Str × Str := (str "a.log", str "CSV_ROW,0.1,0.2,0.3,2,(1/2)")

/-- A second concrete log file (one valid data row, `n_states = 3`). -/
def logB : Str × Str := (str "b.log", str "CSV_ROW,0.1,0.2,0.3,3,(1/2)")

/-- The summary produced when glob enumerates `a.log` before `b.log`. -/
def summaryAB : SummaryC :=
  { total_experiments := 2
    total_combinations := 2
    state_distribution := [(2, 1), (3, 1)]
    hysteresis_rate := 0
    experiments := [(str "a", (1, [])), (str "b", (1, []))] }

/-- The summary produced when glob enumerates `b.log` before `a.log`:
the `experiments` and `state_distribution` objects list their keys in the
other order, so the serialised JSON differs byte-wise. -/
def summaryBA : SummaryC :=
  { total_experiments := 2
    total_combinations := 2
    state_distribution := [(3, 1), (2, 1)]
    hysteresis_rate := 0
    experiments := [(str "b", (1, [])), (str "a", (1, []))] }

/- ------------------------------------------------------------------ -/
/- Generic lemmas about the `Except` embedding.                        -/
/- ------------------------------------------------------------------ -/

theorem ok_bind {α β : Type} (v : α) (f : α → Except PyErr β) :
    (Except.ok v >>= f) = f v := rfl

theorem error_bind {α β : Type} (e : PyErr) (f : α → Except PyErr β) :
    ((Except.error e : Except PyErr α) >>= f) = .error e := rfl

theorem isOk_iff {α : Type} {e : Except PyErr α} : e.isOk = true ↔ ∃ v, e = .ok v := by
  cases e <;> simp [Except.isOk, Except.toBool]

theorem unit_ok {e : Except PyErr Unit} (h : e.isOk = true) : e = .ok () := by
  rcases isOk_iff.mp h with ⟨v, rfl⟩
  rfl

theorem divCheck_ok {a b : ℚ} (hb : b ≠ 0) : divCheck a b = .ok () := by
  simp [divCheck, pydiv, hb]

theorem pydiv_ok {a b : ℚ} (hb : b ≠ 0) : pydiv a b = .ok (ratDiv a b) := by
  simp [pydiv, hb]

theorem ratDiv_eq_div (a b : ℚ) : ratDiv a b = a / b := by
  unfold ratDiv
  by_cases hb : b = 0
  · subst hb
    simp [Rat.divInt_eq_div]
  · have hbn : (b.num : ℚ) ≠ 0 := by
      simpa using Rat.num_ne_zero.mpr hb
    have had : ((a.den : ℤ) : ℚ) ≠ 0 := by
      simp [Rat.den_ne_zero a]
    have hbd : ((b.den : ℤ) : ℚ) ≠ 0 := by
      simp [Rat.den_ne_zero b]
    rw [Rat.divInt_eq_div]
    push_cast
    have ha := Rat.num_div_den a
    have hb2 := Rat.num_div_den b
    conv_rhs => rw [← ha, ← hb2]
    field_simp

theorem foldlM_ok_of {α β : Type} (f : β → α → Except PyErr β) (l : List α)
    (h : ∀ b a, a ∈ l → (f b a).isOk = true) :
    ∀ b, (l.foldlM f b).isOk = true := by
  induction l with
  | nil => intro b; simp [List.foldlM, Except.isOk, Except.toBool, pure, Except.pure]
  | cons x xs ih =>
    intro b
    have hx := h b x (by simp)
    rcases isOk_iff.mp hx with ⟨b', hb'⟩
    simp only [List.foldlM, hb', ok_bind]
    exact ih (fun c a ha => h c a (by simp [ha])) b'

theorem foldlM_inv {α β : Type} (f : β → α → Except PyErr β) (P : β → Prop)
    (hstep : ∀ b a b', f b a = .ok b' → P b → P b') :
    ∀ (l : List α) (b b' : β), P b → l.foldlM f b = .ok b' → P b' := by
  intro l
  induction l with
  | nil =>
    intro b b' hP h
    simp only [List.foldlM, pure, Except.pure, Except.ok.injEq] at h
    exact h ▸ hP
  | cons x xs ih =>
    intro b b' hP h
    simp only [List.foldlM] at h
    cases hx : f b x with
    | error e => rw [hx, error_bind] at h; exact absurd h (by simp)
    | ok b1 =>
      rw [hx, ok_bind] at h
      exact ih b1 b' (hstep b x b1 hx hP) h

theorem foldl_inv {α β : Type} (f : β → α → β) (P : β → Prop)
    (h : ∀ b a, P b → P (f b a)) :
    ∀ (l : List α) (b : β), P b → P (l.foldl f b) := by
  intro l
  induction l with
  | nil => intro b hb; exact hb
  | cons x xs ih => intro b hb; exact ih (f b x) (h b x hb)

/- ------------------------------------------------------------------ -/
/- Lemmas about the string primitives.                                 -/
/- ------------------------------------------------------------------ -/

theorem isPre_iff {p l : Str} : isPre p l = true ↔ ∃ t, l = p ++ t := by
  induction p generalizing l with
  | nil => simp [isPre]
  | cons x xs ih =>
    cases l with
    | nil => simp [isPre]
    | cons y ys =>
      simp only [isPre, Bool.and_eq_true, beq_iff_eq, ih, List.cons_append,
        List.cons.injEq]
      constructor
      · rintro ⟨rfl, t, rfl⟩; exact ⟨t, rfl, rfl⟩
      · rintro ⟨t, rfl, rfl⟩; exact ⟨rfl, t, rfl⟩

theorem hasSub_iff {l sub : Str} : hasSub l sub = true ↔ ∃ pre suf, l = pre ++ sub ++ suf := by
  induction l with
  | nil =>
    simp only [hasSub, isPre_iff]
    constructor
    · rintro ⟨t, ht⟩
      rcases List.append_eq_nil.mp ht.symm with ⟨h1, h2⟩
      exact ⟨[], [], by simp [h1, h2]⟩
    · rintro ⟨pre, suf, h⟩
      rcases List.append_eq_nil.mp (List.append_eq_nil.mp h.symm).1 with ⟨h1, h2⟩
      exact ⟨[], by simp [h2]⟩
  | cons x rest ih =>
    simp only [hasSub, Bool.or_eq_true, isPre_iff, ih]
    constructor
    · rintro (⟨t, ht⟩ | ⟨pre, suf, h⟩)
      · exact ⟨[], t, by simp [ht]⟩
      · exact ⟨x :: pre, suf, by simp [h]⟩
    · rintro ⟨pre, suf, h⟩
      cases pre with
      | nil => exact Or.inl ⟨suf, by simpa using h⟩
      | cons a pre' =>
        simp only [List.cons_append, List.cons.injEq] at h
        exact Or.inr ⟨pre', suf, h.2⟩

theorem mem_of_hasSub {l sub : Str} {c : Char} (h : hasSub l sub = true) (hc : c ∈ sub) :
    c ∈ l := by
  rcases hasSub_iff.mp h with ⟨pre, suf, rfl⟩
  simp [hc]

theorem strStartsWith_csv_not_hash {l : Str}
    (h : strStartsWith l (str "CSV_ROW,") = true) :
    strStartsWith l (str "# ") = false := by
  cases l with
  | nil => exact absurd h (by decide)
  | cons c t =>
    have hc : c = 'C' := by
      have h' : (('C' == c) && isPre (str "SV_ROW,") t) = true := h
      simp only [Bool.and_eq_true, beq_iff_eq] at h'
      exact h'.1.symm
    subst hc
    rfl

theorem splitCh_length_pos (c : Char) (l : Str) : 0 < (splitCh c l).length := by
  induction l with
  | nil => simp [splitCh]
  | cons x xs ih =>
    simp only [splitCh]
    split
    · simp
    · cases h : splitCh c xs with
      | nil => simp
      | cons y ys => simp

theorem splitCh_length_two {c : Char} {l : Str} (h : c ∈ l) :
    2 ≤ (splitCh c l).length := by
  induction l with
  | nil => simp at h
  | cons x xs ih =>
    simp only [splitCh]
    by_cases hx : x = c
    · subst hx
      rw [if_pos rfl]
      have := splitCh_length_pos x xs
      simp only [List.length_cons]
      omega
    · rw [if_neg hx]
      have hmem : c ∈ xs := by
        rcases List.mem_cons.mp h with h1 | h1
        · exact absurd h1.symm hx
        · exact h1
      have h2 := ih hmem
      cases hs : splitCh c xs with
      | nil => rw [hs] at h2; simp at h2
      | cons y ys =>
        rw [hs] at h2
        simpa using h2

theorem wsSplitAux_ne_nil {acc : Str} (h : acc ≠ []) : ∀ t, wsSplitAux acc t ≠ [] := by
  intro t
  induction t generalizing acc with
  | nil => simp [wsSplitAux, h]
  | cons x xs ih =>
    simp only [wsSplitAux]
    by_cases hw : isWsChar x = true
    · rw [if_pos hw, if_neg h]
      simp
    · rw [if_neg hw]
      exact ih (by simp)

theorem wsSplit_ne_nil {x : Char} {t : Str} (h : isWsChar x = false) :
    wsSplit (x :: t) ≠ [] := by
  simp only [wsSplit, wsSplitAux, h]
  exact wsSplitAux_ne_nil (by simp) t

/- ------------------------------------------------------------------ -/
/- Structural lemmas about the line classification and the line loop.  -/
/- ------------------------------------------------------------------ -/

theorem lineStep_c_rows {md : Md} {l : Str} {r : List Row} {md' : Md}
    (h : lineStep_c md l = .ok (r, md')) : r = lineRows_c l := by
  unfold lineStep_c at h
  unfold lineRows_c
  by_cases h1 : strStartsWith l (str "# ") = true
  · rw [if_pos h1] at h
    rw [if_pos h1]
    by_cases h2 : hasSub l (str "Seeds:") = true
    · rw [if_pos h2] at h
      split at h
      · exact absurd h (by simp)
      · split at h
        · simp only [Except.ok.injEq, Prod.mk.injEq] at h
          exact h.1.symm
        · exact absurd h (by simp)
    · rw [if_neg h2] at h
      by_cases h3 : hasSub l (str "Command:") = true
      · rw [if_pos h3] at h
        simp only [Except.ok.injEq, Prod.mk.injEq] at h
        exact h.1.symm
      · rw [if_neg h3] at h
        simp only [Except.ok.injEq, Prod.mk.injEq] at h
        exact h.1.symm
  · rw [if_neg h1] at h
    rw [if_neg h1]
    by_cases h2 : (hasSub l (str "gens=") && hasSub l (str "pop=")) = true
    · rw [if_pos h2] at h
      rw [if_pos h2]
      simp only [Except.ok.injEq, Prod.mk.injEq] at h
      exact h.1.symm
    · rw [if_neg h2] at h
      rw [if_neg h2]
      by_cases h3 : strStartsWith l (str "CSV_ROW,") = true
      · rw [if_pos h3] at h
        rw [if_pos h3]
        simp only [Except.ok.injEq, Prod.mk.injEq] at h
        exact h.1.symm
      · rw [if_neg h3] at h
        rw [if_neg h3]
        simp only [Except.ok.injEq, Prod.mk.injEq] at h
        exact h.1.symm

theorem lineStep_f_rows {md : Md} {l : Str} {r : List Row} {md' : Md}
    (h : lineStep_f md l = .ok (r, md')) : r = lineRows_f l := by
  unfold lineStep_f at h
  unfold lineRows_f
  by_cases h1 : strStartsWith l (str "# ") = true
  · rw [if_pos h1] at h
    rw [if_pos h1]
    by_cases h2 : hasSub l (str "Seeds:") = true
    · rw [if_pos h2] at h
      split at h
      · exact absurd h (by simp)
      · split at h
        · simp only [Except.ok.injEq, Prod.mk.injEq] at h
          exact h.1.symm
        · exact absurd h (by simp)
    · rw [if_neg h2] at h
      by_cases h3 : hasSub l (str "Command:") = true
      · rw [if_pos h3] at h
        simp only [Except.ok.injEq, Prod.mk.injEq] at h
        exact h.1.symm
      · rw [if_neg h3] at h
        simp only [Except.ok.injEq, Prod.mk.injEq] at h
        exact h.1.symm
  · rw [if_neg h1] at h
    rw [if_neg h1]
    by_cases h2 : (hasSub l (str "optimizer=") && hasSub l (str "fitness=")) = true
    · rw [if_pos h2] at h
      rw [if_pos h2]
      simp only [Except.ok.injEq, Prod.mk.injEq] at h
      exact h.1.symm
    · rw [if_neg h2] at h
      rw [if_neg h2]
      by_cases h3 : strStartsWith l (str "CSV_ROW,") = true
      · rw [if_pos h3] at h
        rw [if_pos h3]
        simp only [Except.ok.injEq, Prod.mk.injEq] at h
        exact h.1.symm
      · rw [if_neg h3] at h
        rw [if_neg h3]
        simp only [Except.ok.injEq, Prod.mk.injEq] at h
        exact h.1.symm

theorem lineStep_c_isOk_indep (l : Str) (md md' : Md) :
    (lineStep_c md l).isOk = (lineStep_c md' l).isOk := by
  unfold lineStep_c
  by_cases h1 : strStartsWith l (str "# ") = true
  · rw [if_pos h1, if_pos h1]
    by_cases h2 : hasSub l (str "Seeds:") = true
    · rw [if_pos h2, if_pos h2]
      cases hl : lastTok l with
      | error e => simp only [hl]
      | ok t =>
        simp only [hl]
        cases hp : pyInt t with
        | none => simp only [hp]
        | some n => simp only [hp]; rfl
    · rw [if_neg h2, if_neg h2]
      by_cases h3 : hasSub l (str "Command:") = true
      · rw [if_pos h3, if_pos h3]; rfl
      · rw [if_neg h3, if_neg h3]; rfl
  · rw [if_neg h1, if_neg h1]
    by_cases h2 : (hasSub l (str "gens=") && hasSub l (str "pop=")) = true
    · rw [if_pos h2, if_pos h2]; rfl
    · rw [if_neg h2, if_neg h2]
      by_cases h3 : strStartsWith l (str "CSV_ROW,") = true
      · rw [if_pos h3, if_pos h3]; rfl
      · rw [if_neg h3, if_neg h3]; rfl

theorem lineStep_f_isOk_indep (l : Str) (md md' : Md) :
    (lineStep_f md l).isOk = (lineStep_f md' l).isOk := by
  unfold lineStep_f
  by_cases h1 : strStartsWith l (str "# ") = true
  · rw [if_pos h1, if_pos h1]
    by_cases h2 : hasSub l (str "Seeds:") = true
    · rw [if_pos h2, if_pos h2]
      cases hl : lastTok l with
      | error e => simp only [hl]
      | ok t =>
        simp only [hl]
        cases hp : pyInt t with
        | none => simp only [hp]
        | some n => simp only [hp]; rfl
    · rw [if_neg h2, if_neg h2]
      by_cases h3 : hasSub l (str "Command:") = true
      · rw [if_pos h3, if_pos h3]; rfl
      · rw [if_neg h3, if_neg h3]; rfl
  · rw [if_neg h1, if_neg h1]
    by_cases h2 : (hasSub l (str "optimizer=") && hasSub l (str "fitness=")) = true
    · rw [if_pos h2, if_pos h2]; rfl
    · rw [if_neg h2, if_neg h2]
      by_cases h3 : strStartsWith l (str "CSV_ROW,") = true
      · rw [if_pos h3, if_pos h3]; rfl
      · rw [if_neg h3, if_neg h3]; rfl

theorem parseLines_ok_rows {step : Md → Str → Except PyErr (List Row × Md)}
    {LR : Str → List Row}
    (hstep : ∀ md l r md', step md l = .ok (r, md') → r = LR l) :
    ∀ (ls : List Str) (rows : List Row) (md : Md) (rs : List Row) (md' : Md),
      parseLines step ls rows md = .ok (rs, md') → rs = rows ++ ls.flatMap LR := by
  intro ls
  induction ls with
  | nil =>
    intro rows md rs md' h
    simp only [parseLines, Except.ok.injEq, Prod.mk.injEq] at h
    simp [h.1.symm]
  | cons l ls ih =>
    intro rows md rs md' h
    simp only [parseLines] at h
    cases hs : step md l with
    | error e => rw [hs] at h; exact absurd h (by simp)
    | ok rm =>
      rw [hs] at h
      have h2 := ih (rows ++ rm.1) rm.2 rs md' h
      rw [h2, hstep md l rm.1 rm.2 (by rw [hs])]
      simp

theorem parseLines_isOk_all {step : Md → Str → Except PyErr (List Row × Md)}
    (hind : ∀ l md md', (step md l).isOk = (step md' l).isOk) :
    ∀ (ls : List Str) (rows : List Row) (md : Md),
      (parseLines step ls rows md).isOk = ls.all (fun l => (step [] l).isOk) := by
  intro ls
  induction ls with
  | nil => intro rows md; simp [parseLines, Except.isOk, Except.toBool]
  | cons l ls ih =>
    intro rows md
    simp only [parseLines, List.all_cons]
    cases hs : step md l with
    | error e =>
      have hf : (step [] l).isOk = false := by rw [hind l [] md, hs]; rfl
      simp only [hs, hf, Bool.false_and]
      rfl
    | ok rm =>
      have ht : (step [] l).isOk = true := by rw [hind l [] md, hs]; rfl
      simp only [hs, ht, Bool.true_and]
      exact ih (rows ++ rm.1) rm.2

/- ------------------------------------------------------------------ -/
/- The H2 declining-trend accumulator.                                 -/
/- ------------------------------------------------------------------ -/

theorem h2_fold_false : ∀ (rates : List ℚ) (prev : Option ℚ), h2_fold prev false rates = false := by
  intro rates
  induction rates with
  | nil => intro prev; rfl
  | cons r rest ih =>
    intro prev
    simp only [h2_fold]
    have hc : (if (match prev with | some p => decide (p < r) | none => false) = true
        then false else false) = false := by split <;> rfl
    rw [hc]
    exact ih (some r)

theorem h2_fold_some : ∀ (rates : List ℚ) (p : ℚ),
    (h2_fold (some p) true rates = true ↔ List.Chain' (fun a b => b ≤ a) (p :: rates)) := by
  intro rates
  induction rates with
  | nil => intro p; simp [h2_fold, List.chain'_singleton]
  | cons r rest ih =>
    intro p
    simp only [h2_fold]
    by_cases hpr : p < r
    · have hc : (if (match (some p : Option ℚ) with
          | some q => decide (q < r) | none => false) = true then false else true) = false := by
        simp [hpr]
      rw [hc, h2_fold_false]
      simp only [List.chain'_cons]
      constructor
      · intro h; exact absurd h (by simp)
      · intro h; exact absurd h.1 (not_le.mpr hpr)
    · have hc : (if (match (some p : Option ℚ) with
          | some q => decide (q < r) | none => false) = true then false else true) = true := by
        simp [hpr]
      rw [hc, ih r]
      simp only [List.chain'_cons]
      exact (and_iff_right (not_lt.mp hpr)).symm

theorem insertQ_eq_orderedInsert (x : ℚ) :
    ∀ l, insertQ x l = List.orderedInsert (· ≤ ·) x l := by
  intro l
  induction l with
  | nil => rfl
  | cons y ys ih => simp only [insertQ, List.orderedInsert, ih]

theorem sortQ_eq_insertionSort (l : List ℚ) : sortQ l = List.insertionSort (· ≤ ·) l := by
  induction l with
  | nil => rfl
  | cons x xs ih =>
    simp only [sortQ, List.foldr_cons, List.insertionSort]
    rw [← ih]
    exact insertQ_eq_orderedInsert x (sortQ xs)

theorem sortQ_sorted (l : List ℚ) : List.Sorted (· ≤ ·) (sortQ l) := by
  rw [sortQ_eq_insertionSort]
  exact List.sorted_insertionSort (· ≤ ·) l

/- ------------------------------------------------------------------ -/
/- Error behaviour of the line classification.                         -/
/- ------------------------------------------------------------------ -/

theorem lastTok_ok_of_hash {l : Str} (h : strStartsWith l (str "# ") = true) :
    ∃ t, lastTok l = .ok t := by
  rcases isPre_iff.mp h with ⟨t, rfl⟩
  have hws : wsSplit (str "# " ++ t) ≠ [] := by
    show wsSplit ('#' :: ' ' :: t) ≠ []
    exact wsSplit_ne_nil (by decide)
  cases hg : (wsSplit (str "# " ++ t)).getLast? with
  | none => exact absurd (List.getLast?_eq_none_iff.mp hg) hws
  | some tok => exact ⟨tok, by simp [lastTok, hg]⟩

theorem lineStep_c_err {md : Md} {l : Str} {e : PyErr}
    (h : lineStep_c md l = .error e) : e = .valueError := by
  unfold lineStep_c at h
  by_cases h1 : strStartsWith l (str "# ") = true
  · rw [if_pos h1] at h
    by_cases h2 : hasSub l (str "Seeds:") = true
    · rw [if_pos h2] at h
      rcases lastTok_ok_of_hash h1 with ⟨t, ht⟩
      rw [ht] at h
      simp only [] at h
      split at h
      · exact absurd h (by simp)
      · simp only [Except.error.injEq] at h
        exact h.symm
    · rw [if_neg h2] at h
      by_cases h3 : hasSub l (str "Command:") = true
      · rw [if_pos h3] at h; exact absurd h (by simp)
      · rw [if_neg h3] at h; exact absurd h (by simp)
  · rw [if_neg h1] at h
    by_cases h2 : (hasSub l (str "gens=") && hasSub l (str "pop=")) = true
    · rw [if_pos h2] at h; exact absurd h (by simp)
    · rw [if_neg h2] at h
      by_cases h3 : strStartsWith l (str "CSV_ROW,") = true
      · rw [if_pos h3] at h; exact absurd h (by simp)
      · rw [if_neg h3] at h; exact absurd h (by simp)

theorem lineStep_f_err {md : Md} {l : Str} {e : PyErr}
    (h : lineStep_f md l = .error e) : e = .valueError := by
  unfold lineStep_f at h
  by_cases h1 : strStartsWith l (str "# ") = true
  · rw [if_pos h1] at h
    by_cases h2 : hasSub l (str "Seeds:") = true
    · rw [if_pos h2] at h
      rcases lastTok_ok_of_hash h1 with ⟨t, ht⟩
      rw [ht] at h
      simp only [] at h
      split at h
      · exact absurd h (by simp)
      · simp only [Except.error.injEq] at h
        exact h.symm
    · rw [if_neg h2] at h
      by_cases h3 : hasSub l (str "Command:") = true
      · rw [if_pos h3] at h; exact absurd h (by simp)
      · rw [if_neg h3] at h; exact absurd h (by simp)
  · rw [if_neg h1] at h
    by_cases h2 : (hasSub l (str "optimizer=") && hasSub l (str "fitness=")) = true
    · rw [if_pos h2] at h; exact absurd h (by simp)
    · rw [if_neg h2] at h
      by_cases h3 : strStartsWith l (str "CSV_ROW,") = true
      · rw [if_pos h3] at h; exact absurd h (by simp)
      · rw [if_neg h3] at h; exact absurd h (by simp)

theorem seedsLine_err_c {l : Str} {tok : Str} (md : Md)
    (h1 : strStartsWith l (str "# ") = true) (h2 : hasSub l (str "Seeds:") = true)
    (h3 : (wsSplit l).getLast? = some tok) (h4 : pyInt tok = none) :
    lineStep_c md l = .error .valueError := by
  unfold lineStep_c
  rw [if_pos h1, if_pos h2]
  have ht : lastTok l = .ok tok := by simp [lastTok, h3]
  rw [ht]
  simp only [h4]

theorem seedsLine_err_f {l : Str} {tok : Str} (md : Md)
    (h1 : strStartsWith l (str "# ") = true) (h2 : hasSub l (str "Seeds:") = true)
    (h3 : (wsSplit l).getLast? = some tok) (h4 : pyInt tok = none) :
    lineStep_f md l = .error .valueError := by
  unfold lineStep_f
  rw [if_pos h1, if_pos h2]
  have ht : lastTok l = .ok tok := by simp [lastTok, h3]
  rw [ht]
  simp only [h4]

theorem parseLines_err {step : Md → Str → Except PyErr (List Row × Md)}
    (herr : ∀ md l e, step md l = .error e → e = .valueError)
    {line : Str} (hbad : ∀ md, step md line = .error .valueError) :
    ∀ (ls : List Str) (rows : List Row) (md : Md), line ∈ ls →
      parseLines step ls rows md = .error .valueError := by
  intro ls
  induction ls with
  | nil => intro rows md hm; simp at hm
  | cons l ls ih =>
    intro rows md hm
    simp only [parseLines]
    rcases List.mem_cons.mp hm with rfl | hm'
    · rw [hbad md]
    · cases hs : step md l with
      | error e =>
        have he : e = .valueError := herr md l e hs
        subst he
        rfl
      | ok rm => exact ih (rows ++ rm.1) rm.2 hm'

/- ------------------------------------------------------------------ -/
/- Claim theorems.                                                     -/
/- ------------------------------------------------------------------ -/

/-- C3: for both confidence-interval variants (Wald approximation in
`comprehensive_analysis.py`, Wilson score in `final_analysis.py`),
`calculate_confidence_interval(successes, 0)` returns exactly `(0, 0)` for
every value of `successes`. -/
theorem ci_zero_trials (successes : ℕ) :
    calculate_confidence_interval_c successes 0 = (0, 0) ∧
    calculate_confidence_interval_f successes 0 = (0, 0) := by
  constructor
  · simp [calculate_confidence_interval_c]
  · simp [calculate_confidence_interval_f]

/-- C9: the H2 declining-trend check of `comprehensive_analysis.py` reports
PASS on the per-energy-group ternary-rate sequence (taken in ascending order
of `energy_zero`: the key list is sorted) if and only if that sequence is
non-increasing; in particular `[0.5, 0.4, 0.3]` gives PASS and
`[0.3, 0.5, 0.2]` gives FAIL. -/
theorem h2_declining_iff_nonincreasing :
    (∀ rates : List ℚ, h2_declining rates = true ↔ List.Chain' (fun a b => b ≤ a) rates) ∧
    (∀ rows : List Row, List.Sorted (· ≤ ·) (h2_keys rows)) ∧
    h2_declining [1/2, 2/5, 3/10] = true ∧
    h2_declining [3/10, 1/2, 1/5] = false := by
  refine ⟨?_, ?_, by norm_num [h2_declining, h2_fold], by norm_num [h2_declining, h2_fold]⟩
  · intro rates
    cases rates with
    | nil => simp [h2_declining, h2_fold]
    | cons r rest =>
      have hstep : h2_declining (r :: rest) = h2_fold (some r) true rest := by
        simp [h2_declining, h2_fold]
      rw [hstep]
      exact h2_fold_some rest r
  · intro rows
    exact sortQ_sorted _

/-- C10: a line starting with `# ` and containing `Seeds:` whose last
whitespace-separated token is not a valid decimal integer makes
`parse_csv_rows_from_log` (both variants) raise an uncaught `ValueError`,
which aborts the whole analysis run instead of skipping the line. -/
theorem seeds_line_aborts_run (text line tok : Str)
    (hmem : line ∈ splitCh '\n' text)
    (h1 : strStartsWith line (str "# ") = true)
    (h2 : hasSub line (str "Seeds:") = true)
    (h3 : (wsSplit line).getLast? = some tok)
    (h4 : pyInt tok = none) :
    parse_csv_rows_from_log_c text = .error .valueError ∧
    parse_csv_rows_from_log_f text = .error .valueError ∧
    ∀ name : Str, analyze_results [(name, text)] = .error .valueError ∧
      analyze_final_results [(name, text)] = .error .valueError := by
  have hc : parse_csv_rows_from_log_c text = .error .valueError :=
    @parseLines_err lineStep_c (fun md l e h => lineStep_c_err h) line
      (fun md => seedsLine_err_c md h1 h2 h3 h4) (splitCh '\n' text) [] [] hmem
  have hf : parse_csv_rows_from_log_f text = .error .valueError :=
    @parseLines_err lineStep_f (fun md l e h => lineStep_f_err h) line
      (fun md => seedsLine_err_f md h1 h2 h3 h4) (splitCh '\n' text) [] [] hmem
  refine ⟨hc, hf, fun name => ⟨?_, ?_⟩⟩
  · unfold analyze_results
    rw [if_neg (by simp)]
    simp only [List.foldlM, aggStep_c, hc, error_bind]
  · unfold analyze_final_results
    rw [if_neg (by simp)]
    simp only [List.foldlM, aggStep_f, hf, error_bind]

/-- Witness for C10 at the concrete input `"# Seeds: abc"`. -/
theorem seeds_line_aborts_run_witness :
    parse_csv_rows_from_log_c (str "# Seeds: abc") = .error .valueError ∧
    analyze_results [(str "a.log", str "# Seeds: abc")] = .error .valueError := by
  have h := seeds_line_aborts_run (str "# Seeds: abc") (str "# Seeds: abc") (str "abc")
    (by decide) (by decide) (by decide) (by decide) (by decide)
  exact ⟨h.1, (h.2.2 (str "a.log")).1⟩

/- ------------------------------------------------------------------ -/
/- C1/C2/C5: the CSV_ROW branch.                                       -/
/- ------------------------------------------------------------------ -/

theorem csvRow?_some {l : Str} {sg e0 e1 : ℚ} {ns : ℤ}
    (hlen : 5 ≤ (splitCh ',' l).length)
    (h1 : pyFloat ((splitCh ',' l).getD 1 []) = some sg)
    (h2 : pyFloat ((splitCh ',' l).getD 2 []) = some e0)
    (h3 : pyFloat ((splitCh ',' l).getD 3 []) = some e1)
    (h4 : pyInt ((splitCh ',' l).getD 4 []) = some ns) :
    csvRow? l = some
      { sigma := sg, energy_zero := e0, energy_abs1 := e1, n_states := ns,
        hysteresis := hasSub (List.intercalate (str ",") ((splitCh ',' l).drop 5)) (str "[H]"),
        consensus := firstFrac (List.intercalate (str ",") ((splitCh ',' l).drop 5)) } := by
  unfold csvRow?
  rw [if_pos hlen]
  simp only [h1, h2, h3, h4]

theorem csvRow?_none {l : Str}
    (hbad : (splitCh ',' l).length < 5 ∨ pyFloat ((splitCh ',' l).getD 1 []) = none ∨
      pyFloat ((splitCh ',' l).getD 2 []) = none ∨
      pyFloat ((splitCh ',' l).getD 3 []) = none ∨
      pyInt ((splitCh ',' l).getD 4 []) = none) :
    csvRow? l = none := by
  unfold csvRow?
  by_cases hL : 5 ≤ (splitCh ',' l).length
  · rw [if_pos hL]
    rcases hbad with h | h | h | h | h
    · omega
    · simp only [h]
    · cases hp1 : pyFloat ((splitCh ',' l).getD 1 []) <;> simp only [hp1, h]
    · cases hp1 : pyFloat ((splitCh ',' l).getD 1 []) <;>
        cases hp2 : pyFloat ((splitCh ',' l).getD 2 []) <;> simp only [hp1, hp2, h]
    · cases hp1 : pyFloat ((splitCh ',' l).getD 1 []) <;>
        cases hp2 : pyFloat ((splitCh ',' l).getD 2 []) <;>
        cases hp3 : pyFloat ((splitCh ',' l).getD 3 []) <;> simp only [hp1, hp2, hp3, h]
  · rw [if_neg hL]

theorem lineRows_c_csv {l : Str} (hpre : strStartsWith l (str "CSV_ROW,") = true)
    (hgp : (hasSub l (str "gens=") && hasSub l (str "pop=")) = false) :
    lineRows_c l = (csvRow? l).toList := by
  unfold lineRows_c
  rw [if_neg (by rw [strStartsWith_csv_not_hash hpre]; simp), if_neg (by rw [hgp]; simp),
    if_pos hpre]

theorem lineRows_f_csv {l : Str} (hpre : strStartsWith l (str "CSV_ROW,") = true)
    (hof : (hasSub l (str "optimizer=") && hasSub l (str "fitness=")) = false) :
    lineRows_f l = (csvRow? l).toList := by
  unfold lineRows_f
  rw [if_neg (by rw [strStartsWith_csv_not_hash hpre]; simp), if_neg (by rw [hof]; simp),
    if_pos hpre]

theorem mem_lineRows_c {l : Str} {r : Row} (h : r ∈ lineRows_c l) : csvRow? l = some r := by
  unfold lineRows_c at h
  split at h
  · simp at h
  · split at h
    · simp at h
    · split at h
      · rcases Option.mem_toList.mp h with h'
        exact h'
      · simp at h

theorem mem_lineRows_f {l : Str} {r : Row} (h : r ∈ lineRows_f l) : csvRow? l = some r := by
  unfold lineRows_f at h
  split at h
  · simp at h
  · split at h
    · simp at h
    · split at h
      · rcases Option.mem_toList.mp h with h'
        exact h'
      · simp at h

theorem matchFrac_nonneg {l : Str} {s t : ℤ} (h : matchFrac l = some (s, t)) :
    0 ≤ s ∧ 0 ≤ t := by
  unfold matchFrac at h
  split at h
  · split at h
    · exact absurd h (by simp)
    · split at h
      · split at h
        · exact absurd h (by simp)
        · split at h
          · simp only [Option.some.injEq, Prod.mk.injEq] at h
            refine ⟨?_, ?_⟩
            · rw [← h.1]; exact Int.natCast_nonneg _
            · rw [← h.2]; exact Int.natCast_nonneg _
          · exact absurd h (by simp)
      · exact absurd h (by simp)
  · exact absurd h (by simp)

theorem firstFrac_nonneg : ∀ {l : Str} {s t : ℤ}, firstFrac l = some (s, t) → 0 ≤ s ∧ 0 ≤ t := by
  intro l
  induction l with
  | nil => intro s t h; exact absurd h (by simp [firstFrac])
  | cons c rest ih =>
    intro s t h
    unfold firstFrac at h
    split at h
    · next v heq =>
      simp only [Option.some.injEq] at h
      exact matchFrac_nonneg (h ▸ heq)
    · exact ih h

theorem csvRow?_consensus {l : Str} {r : Row} (h : csvRow? l = some r) :
    r.consensus = firstFrac (List.intercalate (str ",") ((splitCh ',' l).drop 5)) := by
  unfold csvRow? at h
  split at h
  · split at h
    · simp only [Option.some.injEq] at h
      rw [← h]
    · exact absurd h (by simp)
  · exact absurd h (by simp)

/-- C1 (amended): on an input whose parse completes, the output row list is
the concatenation of the per-line contributions, and a `CSV_ROW,` line with
at least four further comma fields whose first three parse as reals and
fourth as an integer contributes exactly one record — with the parsed field
values, the `[H]` flag and the first `(s/t)` pattern of the comma-rejoined
remainder — provided the line is not captured by the parameter-echo branch
(containing both `gens=` and `pop=` in the comprehensive variant,
respectively both `optimizer=` and `fitness=` in the final variant). -/
theorem csv_row_produces_one_record (l : Str) (sg e0 e1 : ℚ) (ns : ℤ)
    (hpre : strStartsWith l (str "CSV_ROW,") = true)
    (hlen : 5 ≤ (splitCh ',' l).length)
    (h1 : pyFloat ((splitCh ',' l).getD 1 []) = some sg)
    (h2 : pyFloat ((splitCh ',' l).getD 2 []) = some e0)
    (h3 : pyFloat ((splitCh ',' l).getD 3 []) = some e1)
    (h4 : pyInt ((splitCh ',' l).getD 4 []) = some ns) :
    ((hasSub l (str "gens=") && hasSub l (str "pop=")) = false →
      lineRows_c l = [{ sigma := sg
                        energy_zero := e0
                        energy_abs1 := e1
                        n_states := ns
                        hysteresis := hasSub (List.intercalate (str ",")
                          ((splitCh ',' l).drop 5)) (str "[H]")
                        consensus := firstFrac (List.intercalate (str ",")
                          ((splitCh ',' l).drop 5)) }]) ∧
    ((hasSub l (str "optimizer=") && hasSub l (str "fitness=")) = false →
      lineRows_f l = [{ sigma := sg
                        energy_zero := e0
                        energy_abs1 := e1
                        n_states := ns
                        hysteresis := hasSub (List.intercalate (str ",")
                          ((splitCh ',' l).drop 5)) (str "[H]")
                        consensus := firstFrac (List.intercalate (str ",")
                          ((splitCh ',' l).drop 5)) }]) ∧
    (∀ (text : Str) (rows : List Row) (md : Md),
      parse_csv_rows_from_log_c text = .ok (rows, md) →
      rows = (splitCh '\n' text).flatMap lineRows_c) ∧
    (∀ (text : Str) (rows : List Row) (md : Md),
      parse_csv_rows_from_log_f text = .ok (rows, md) →
      rows = (splitCh '\n' text).flatMap lineRows_f) := by
  refine ⟨?_, ?_, ?_, ?_⟩
  · intro hgp
    rw [lineRows_c_csv hpre hgp, csvRow?_some hlen h1 h2 h3 h4]
    rfl
  · intro hof
    rw [lineRows_f_csv hpre hof, csvRow?_some hlen h1 h2 h3 h4]
    rfl
  · intro text rows md h
    have := parseLines_ok_rows (fun md l r md' hs => lineStep_c_rows hs)
      (splitCh '\n' text) [] [] rows md h
    simpa using this
  · intro text rows md h
    have := parseLines_ok_rows (fun md l r md' hs => lineStep_f_rows hs)
      (splitCh '\n' text) [] [] rows md h
    simpa using this

/-- Witness for the amended C1 at the spec's own example line
`CSV_ROW,0.1,0.5,1.0,3,[H](18/20)`. -/
theorem csv_row_produces_one_record_witness :
    lineRows_c (str "CSV_ROW,0.1,0.5,1.0,3,[H](18/20)") =
      [{ sigma := Rat.divInt 1 10
         energy_zero := Rat.divInt 1 2
         energy_abs1 := 1
         n_states := 3
         hysteresis := true
         consensus := some (18, 20) }] := by
  have h := csv_row_produces_one_record (str "CSV_ROW,0.1,0.5,1.0,3,[H](18/20)")
    (Rat.divInt 1 10) (Rat.divInt 1 2) 1 3
    (by decide) (by decide) (by decide) (by decide) (by decide) (by decide)
  rw [h.1 (by decide)]
  decide

/-- Counterexample to C1 as stated: the line
`CSV_ROW,0.1,0.5,1.0,3,(1/2) gens=1 pop=2` has the claimed form (marker
prefix, six comma fields, three reals and an integer), yet
`parse_csv_rows_from_log` of `comprehensive_analysis.py` produces no record
from it — the `gens=`/`pop=` parameter-echo branch captures the line first
and turns it into metadata. -/
theorem csv_row_shadowed_by_metadata_branch :
    strStartsWith (str "CSV_ROW,0.1,0.5,1.0,3,(1/2) gens=1 pop=2") (str "CSV_ROW,") = true ∧
    (splitCh ',' (str "CSV_ROW,0.1,0.5,1.0,3,(1/2) gens=1 pop=2")).length = 6 ∧
    pyFloat ((splitCh ',' (str "CSV_ROW,0.1,0.5,1.0,3,(1/2) gens=1 pop=2")).getD 1 []) =
      some (Rat.divInt 1 10) ∧
    pyFloat ((splitCh ',' (str "CSV_ROW,0.1,0.5,1.0,3,(1/2) gens=1 pop=2")).getD 2 []) =
      some (Rat.divInt 1 2) ∧
    pyFloat ((splitCh ',' (str "CSV_ROW,0.1,0.5,1.0,3,(1/2) gens=1 pop=2")).getD 3 []) =
      some 1 ∧
    pyInt ((splitCh ',' (str "CSV_ROW,0.1,0.5,1.0,3,(1/2) gens=1 pop=2")).getD 4 []) =
      some 3 ∧
    parse_csv_rows_from_log_c (str "CSV_ROW,0.1,0.5,1.0,3,(1/2) gens=1 pop=2") =
      .ok ([], [(str "gens", .i 1), (str "pop", .i 2)]) := by
  decide

/-- C2 (amended): the `n_states` field is whatever integer `int()` parses
(possibly negative) and `successes ≤ trials` is not enforced; what does hold
is that both consensus components, coming from `(\d+)` digit groups, are
non-negative — in either script variant. -/
theorem consensus_components_nonneg :
    (∀ (text : Str) (rows : List Row) (md : Md),
      parse_csv_rows_from_log_c text = .ok (rows, md) →
      ∀ r ∈ rows, ∀ s t : ℤ, r.consensus = some (s, t) → 0 ≤ s ∧ 0 ≤ t) ∧
    (∀ (text : Str) (rows : List Row) (md : Md),
      parse_csv_rows_from_log_f text = .ok (rows, md) →
      ∀ r ∈ rows, ∀ s t : ℤ, r.consensus = some (s, t) → 0 ≤ s ∧ 0 ≤ t) := by
  constructor
  · intro text rows md h r hr s t hc
    have hrows := parseLines_ok_rows (fun md l r md' hs => lineStep_c_rows hs)
      (splitCh '\n' text) [] [] rows md h
    rw [hrows] at hr
    simp only [List.nil_append] at hr
    rcases List.mem_flatMap.mp hr with ⟨l, _, hrl⟩
    have hcr := csvRow?_consensus (mem_lineRows_c hrl)
    rw [hcr] at hc
    exact firstFrac_nonneg hc
  · intro text rows md h r hr s t hc
    have hrows := parseLines_ok_rows (fun md l r md' hs => lineStep_f_rows hs)
      (splitCh '\n' text) [] [] rows md h
    rw [hrows] at hr
    simp only [List.nil_append] at hr
    rcases List.mem_flatMap.mp hr with ⟨l, _, hrl⟩
    have hcr := csvRow?_consensus (mem_lineRows_f hrl)
    rw [hcr] at hc
    exact firstFrac_nonneg hc

/-- Witness for the amended C2 at the concrete row `CSV_ROW,1,1,1,3,(2/5)`. -/
theorem consensus_components_nonneg_witness : (0 : ℤ) ≤ 2 ∧ (0 : ℤ) ≤ 5 :=
  consensus_components_nonneg.1 (str "CSV_ROW,1,1,1,3,(2/5)")
    [{ sigma := 1
       energy_zero := 1
       energy_abs1 := 1
       n_states := 3
       hysteresis := false
       consensus := some (2, 5) }] []
    (by decide)
    { sigma := 1
      energy_zero := 1
      energy_abs1 := 1
      n_states := 3
      hysteresis := false
      consensus := some (2, 5) }
    (by decide) 2 5 (by decide)

/-- Counterexample to C2 as stated: the row `CSV_ROW,1,1,1,-2,(20/18)`
parses (in both variants) to a record with negative `n_states` and a
consensus pair whose successes exceed its trials. -/
theorem c2_negative_states_and_inverted_consensus :
    parse_csv_rows_from_log_c (str "CSV_ROW,1,1,1,-2,(20/18)") =
      .ok ([{ sigma := 1
              energy_zero := 1
              energy_abs1 := 1
              n_states := -2
              hysteresis := false
              consensus := some (20, 18) }], []) ∧
    parse_csv_rows_from_log_f (str "CSV_ROW,1,1,1,-2,(20/18)") =
      .ok ([{ sigma := 1
              energy_zero := 1
              energy_abs1 := 1
              n_states := -2
              hysteresis := false
              consensus := some (20, 18) }], []) ∧
    (-2 : ℤ) < 0 ∧ (18 : ℤ) < 20 := by
  decide

/-- C5: a `CSV_ROW,`-prefixed line that splits into fewer than five comma
fields, or whose first four data fields fail to parse as three reals and an
integer, contributes no record in either variant, raises no error, and its
presence does not change whether the rest of the input parses (the overall
success of the line loop is the conjunction of the per-line successes, and
this line always succeeds). -/
theorem malformed_csv_row_skipped (l : Str)
    (hpre : strStartsWith l (str "CSV_ROW,") = true)
    (hbad : (splitCh ',' l).length < 5 ∨ pyFloat ((splitCh ',' l).getD 1 []) = none ∨
      pyFloat ((splitCh ',' l).getD 2 []) = none ∨
      pyFloat ((splitCh ',' l).getD 3 []) = none ∨
      pyInt ((splitCh ',' l).getD 4 []) = none) :
    lineRows_c l = [] ∧ lineRows_f l = [] ∧
    (∀ md : Md, ∃ md' : Md, lineStep_c md l = .ok ([], md')) ∧
    (∀ md : Md, ∃ md' : Md, lineStep_f md l = .ok ([], md')) ∧
    (∀ (ls1 ls2 : List Str) (rows : List Row) (md : Md),
      (parseLines lineStep_c (ls1 ++ l :: ls2) rows md).isOk =
        (parseLines lineStep_c (ls1 ++ ls2) rows md).isOk) ∧
    (∀ (ls1 ls2 : List Str) (rows : List Row) (md : Md),
      (parseLines lineStep_f (ls1 ++ l :: ls2) rows md).isOk =
        (parseLines lineStep_f (ls1 ++ ls2) rows md).isOk) := by
  have hnone := csvRow?_none hbad
  have hhash := strStartsWith_csv_not_hash hpre
  have hstepc : ∀ md : Md, ∃ md' : Md, lineStep_c md l = .ok ([], md') := by
    intro md
    unfold lineStep_c
    rw [if_neg (by rw [hhash]; simp)]
    by_cases hgp : (hasSub l (str "gens=") && hasSub l (str "pop=")) = true
    · rw [if_pos hgp]
      exact ⟨_, rfl⟩
    · rw [if_neg hgp, if_pos hpre, hnone]
      exact ⟨md, rfl⟩
  have hstepf : ∀ md : Md, ∃ md' : Md, lineStep_f md l = .ok ([], md') := by
    intro md
    unfold lineStep_f
    rw [if_neg (by rw [hhash]; simp)]
    by_cases hof : (hasSub l (str "optimizer=") && hasSub l (str "fitness=")) = true
    · rw [if_pos hof]
      exact ⟨_, rfl⟩
    · rw [if_neg hof, if_pos hpre, hnone]
      exact ⟨md, rfl⟩
  have hokc : (lineStep_c [] l).isOk = true := by
    rcases hstepc [] with ⟨md', h⟩
    rw [h]
    rfl
  have hokf : (lineStep_f [] l).isOk = true := by
    rcases hstepf [] with ⟨md', h⟩
    rw [h]
    rfl
  refine ⟨?_, ?_, hstepc, hstepf, ?_, ?_⟩
  · unfold lineRows_c
    rw [if_neg (by rw [hhash]; simp)]
    by_cases hgp : (hasSub l (str "gens=") && hasSub l (str "pop=")) = true
    · rw [if_pos hgp]
    · rw [if_neg hgp, if_pos hpre, hnone]
      rfl
  · unfold lineRows_f
    rw [if_neg (by rw [hhash]; simp)]
    by_cases hof : (hasSub l (str "optimizer=") && hasSub l (str "fitness=")) = true
    · rw [if_pos hof]
    · rw [if_neg hof, if_pos hpre, hnone]
      rfl
  · intro ls1 ls2 rows md
    rw [parseLines_isOk_all (fun a b c => lineStep_c_isOk_indep a b c),
      parseLines_isOk_all (fun a b c => lineStep_c_isOk_indep a b c)]
    simp [List.all_append, List.all_cons, hokc]
  · intro ls1 ls2 rows md
    rw [parseLines_isOk_all (fun a b c => lineStep_f_isOk_indep a b c),
      parseLines_isOk_all (fun a b c => lineStep_f_isOk_indep a b c)]
    simp [List.all_append, List.all_cons, hokf]

/-- Witness for C5 at the spec's own example `CSV_ROW,abc,0.5` (three comma
fields, non-numeric second field). -/
theorem malformed_csv_row_skipped_witness :
    lineRows_c (str "CSV_ROW,abc,0.5") = [] ∧
    parse_csv_rows_from_log_c (str "CSV_ROW,abc,0.5") = .ok ([], []) := by
  have h := malformed_csv_row_skipped (str "CSV_ROW,abc,0.5") (by decide)
    (Or.inl (by decide))
  refine ⟨h.1, ?_⟩
  decide

/-- C4: for both interval variants, with `0 < successes ≤ trials` the clamped
interval satisfies `0 ≤ lower` and `upper ≤ 1`; and at 100% success with at
least 5 trials the lower bound is strictly positive while the upper bound
stays at most 1. -/
theorem ci_bounds :
    (∀ s t : ℕ, 0 < s → s ≤ t →
      0 ≤ (calculate_confidence_interval_c s t).1 ∧
      (calculate_confidence_interval_c s t).2 ≤ 1 ∧
      0 ≤ (calculate_confidence_interval_f s t).1 ∧
      (calculate_confidence_interval_f s t).2 ≤ 1) ∧
    (∀ n : ℕ, 5 ≤ n →
      0 < (calculate_confidence_interval_c n n).1 ∧
      (calculate_confidence_interval_c n n).2 ≤ 1 ∧
      0 < (calculate_confidence_interval_f n n).1 ∧
      (calculate_confidence_interval_f n n).2 ≤ 1) := by
  constructor
  · intro s t hs hst
    have ht0 : t ≠ 0 := by omega
    unfold calculate_confidence_interval_c calculate_confidence_interval_f
    rw [if_neg ht0, if_neg ht0]
    exact ⟨le_max_left _ _, min_le_left _ _, le_max_left _ _, min_le_left _ _⟩
  · intro n hn
    have hn0 : n ≠ 0 := by omega
    have hne : (n : ℝ) ≠ 0 := Nat.cast_ne_zero.mpr hn0
    have hp : (n : ℝ) / (n : ℝ) = 1 := div_self hne
    unfold calculate_confidence_interval_c calculate_confidence_interval_f
    rw [if_neg hn0, if_neg hn0]
    refine ⟨?_, min_le_left _ _, ?_, min_le_left _ _⟩
    · show 0 < max 0 ((n : ℝ) / n - 1.96 * Real.sqrt ((n : ℝ) / n * (1 - (n : ℝ) / n) / n))
      rw [hp]
      have hz : (1 : ℝ) * (1 - 1) / n = 0 := by norm_num
      rw [hz, Real.sqrt_zero]
      refine lt_max_iff.mpr (Or.inr ?_)
      norm_num
    · show 0 < max 0 (((n : ℝ) / n + 1.96 ^ 2 / (2 * n)) / (1 + 1.96 ^ 2 / n) -
        1.96 * Real.sqrt (((n : ℝ) / n * (1 - (n : ℝ) / n) + 1.96 ^ 2 / (4 * n)) / n) /
          (1 + 1.96 ^ 2 / n))
      rw [hp]
      have hrad : ((1 : ℝ) * (1 - 1) + 1.96 ^ 2 / (4 * n)) / n = (1.96 / (2 * n)) ^ 2 := by
        field_simp
        ring
      rw [hrad, Real.sqrt_sq (by positivity)]
      have hkey : ((1 : ℝ) + 1.96 ^ 2 / (2 * n)) / (1 + 1.96 ^ 2 / n) -
          1.96 * (1.96 / (2 * n)) / (1 + 1.96 ^ 2 / n) = 1 / (1 + 1.96 ^ 2 / n) := by
        have hd : (0 : ℝ) < 1 + 1.96 ^ 2 / n := by positivity
        field_simp
        ring
      rw [hkey]
      refine lt_max_iff.mpr (Or.inr ?_)
      positivity

/-- Witness for C4 at `(successes, trials) = (1, 2)` and `n = 5`. -/
theorem ci_bounds_witness :
    (0 ≤ (calculate_confidence_interval_c 1 2).1 ∧
      (calculate_confidence_interval_c 1 2).2 ≤ 1 ∧
      0 ≤ (calculate_confidence_interval_f 1 2).1 ∧
      (calculate_confidence_interval_f 1 2).2 ≤ 1) ∧
    (0 < (calculate_confidence_interval_c 5 5).1 ∧
      (calculate_confidence_interval_c 5 5).2 ≤ 1 ∧
      0 < (calculate_confidence_interval_f 5 5).1 ∧
      (calculate_confidence_interval_f 5 5).2 ≤ 1) :=
  ⟨ci_bounds.1 1 2 (by decide) (by decide), ci_bounds.2 5 (by decide)⟩

/- ------------------------------------------------------------------ -/
/- Helper lemmas for the analysis pipelines.                           -/
/- ------------------------------------------------------------------ -/

theorem divCheck_isOk {a b : ℚ} (hb : b ≠ 0) : (divCheck a b).isOk = true := by
  rw [divCheck_ok hb]
  rfl

theorem lenQ_ne_zero {α : Type} {l : List α} (h : l.isEmpty = false) :
    ((l.length : ℚ)) ≠ 0 := by
  have := List.isEmpty_eq_false.mp h
  have hlen : l.length ≠ 0 := by
    intro h0
    exact this (List.length_eq_zero.mp h0)
  exact_mod_cast hlen

theorem mem_insertS {x y : Str} : ∀ {l : List Str}, y ∈ insertS x l ↔ y = x ∨ y ∈ l := by
  intro l
  induction l with
  | nil => simp [insertS]
  | cons a as ih =>
    simp only [insertS]
    split
    · simp
    · simp only [List.mem_cons, ih]
      tauto

theorem mem_sortStrs {x : Str} : ∀ {l : List Str}, x ∈ sortStrs l ↔ x ∈ l := by
  intro l
  induction l with
  | nil => simp [sortStrs]
  | cons a as ih =>
    simp only [sortStrs, List.foldr_cons] at *
    rw [mem_insertS, ih]
    simp

theorem mem_sortQ {x : ℚ} {l : List ℚ} : x ∈ sortQ l ↔ x ∈ l := by
  rw [sortQ_eq_insertionSort]
  exact (List.perm_insertionSort (· ≤ ·) l).mem_iff

theorem sortQ_ne_nil {l : List ℚ} (h : l ≠ []) : sortQ l ≠ [] := by
  rw [sortQ_eq_insertionSort]
  intro h0
  exact h (List.eq_nil_of_length_eq_zero
    (by rw [← (List.perm_insertionSort (· ≤ ·) l).length_eq, h0]; rfl))

theorem groupAppend_preserves {κ : Type} [DecidableEq κ]
    (acc : List (κ × List Row)) (k : κ) (r : Row)
    (h : ∀ p ∈ acc, p.2 ≠ []) : ∀ p ∈ groupAppend acc k r, p.2 ≠ [] := by
  unfold groupAppend
  split
  · intro p hp
    rcases List.mem_map.mp hp with ⟨q, hq, hpq⟩
    by_cases hqk : q.1 = k
    · rw [if_pos hqk] at hpq
      rw [← hpq]
      simp
    · rw [if_neg hqk] at hpq
      rw [← hpq]
      exact h q hq
  · intro p hp
    rcases List.mem_append.mp hp with hp1 | hp1
    · exact h p hp1
    · rw [List.mem_singleton.mp hp1]
      simp

theorem groupAppend_ne_nil {κ : Type} [DecidableEq κ]
    (acc : List (κ × List Row)) (k : κ) (r : Row) : groupAppend acc k r ≠ [] := by
  unfold groupAppend
  split
  · next hany =>
    intro h0
    rw [List.map_eq_nil_iff] at h0
    rw [h0] at hany
    simp at hany
  · simp

theorem groupRows_ne_nil {κ : Type} [DecidableEq κ]
    {gs : List (κ × List Row)} {k : κ}
    (hne : ∀ p ∈ gs, p.2 ≠ []) (hk : k ∈ gs.map Prod.fst) : groupRows gs k ≠ [] := by
  rcases List.mem_map.mp hk with ⟨p, hp, hpk⟩
  have : ∃ q ∈ gs, (fun q => decide (q.1 = k)) q = true := ⟨p, hp, by simp [hpk]⟩
  rcases Option.isSome_iff_exists.mp (List.find?_isSome.mpr this) with ⟨q, hq⟩
  unfold groupRows
  rw [hq]
  exact hne q (List.mem_of_find?_eq_some hq)

theorem pyGet_one_ok {l : List Str} (h : 2 ≤ l.length) : (pyGet l 1).isOk = true := by
  unfold pyGet
  cases hg : l.get? 1 with
  | none =>
    have := List.get?_eq_none.mp hg
    omega
  | some x => rfl

theorem h2_groups_spec (rows : List Row) :
    (∀ p ∈ h2_groups rows, p.2 ≠ []) ∧ (rows ≠ [] → h2_groups rows ≠ []) := by
  constructor
  · exact foldl_inv (fun acc r => groupAppend acc r.energy_zero r) (fun gs => ∀ p ∈ gs, p.2 ≠ [])
      (fun gs r hp => groupAppend_preserves gs r.energy_zero r hp) rows [] (by simp)
  · intro hne
    cases rows with
    | nil => exact absurd rfl hne
    | cons r rest =>
      unfold h2_groups
      rw [List.foldl_cons]
      exact foldl_inv (fun acc r => groupAppend acc r.energy_zero r) (fun gs => gs ≠ [])
        (fun gs r h0 => groupAppend_ne_nil gs r.energy_zero r) rest _
        (groupAppend_ne_nil [] r.energy_zero r)

theorem h2_last_total_pos {cont_base : List Row} (h : cont_base.isEmpty = false) (t : ℕ) :
    0 < h2_last_total cont_base t := by
  have hgs := h2_groups_spec cont_base
  have hgne : h2_groups cont_base ≠ [] := hgs.2 (List.isEmpty_eq_false.mp h)
  have hkeys : h2_keys cont_base ≠ [] := by
    unfold h2_keys
    apply sortQ_ne_nil
    intro h0
    exact hgne (List.map_eq_nil_iff.mp h0)
  unfold h2_last_total
  cases hk : (h2_keys cont_base).getLast? with
  | none => exact absurd (List.getLast?_eq_none_iff.mp hk) hkeys
  | some k =>
    have hkmem : k ∈ h2_keys cont_base := List.mem_of_mem_getLast? hk
    have hkmem' : k ∈ (h2_groups cont_base).map Prod.fst := by
      unfold h2_keys at hkmem
      exact mem_sortQ.mp hkmem
    have := groupRows_ne_nil hgs.1 hkmem'
    exact List.length_pos.mpr this

theorem not_isEmpty_false {α : Type} {l : List α} (h : ¬(l.isEmpty = true)) :
    l.isEmpty = false := by
  revert h
  cases l.isEmpty <;> simp

theorem stateLoop_c_ok {sc : List (ℤ × ℕ)} {total : ℕ} (h : total ≠ 0) :
    stateLoop_c sc total = .ok () := by
  apply unit_ok
  apply foldlM_ok_of
  intro b k hk
  exact divCheck_isOk (by exact_mod_cast h)

theorem h1Block_c_ok (d : List Row) : h1Block_c d = .ok () := by
  unfold h1Block_c
  dsimp only
  split
  · rfl
  · split
    · rfl
    · next h2 =>
      have hne := lenQ_ne_zero (not_isEmpty_false h2)
      rw [divCheck_ok hne, ok_bind, divCheck_ok hne]

theorem h3Block_c_ok (d : List Row) : h3Block_c d = .ok () := by
  unfold h3Block_c
  dsimp only
  split
  · rfl
  · next h2 => exact divCheck_ok (lenQ_ne_zero (not_isEmpty_false h2))

theorem getRates_div_ok {d : List Row} (h : d.isEmpty = false) : getRates_div d = .ok () := by
  unfold getRates_div
  rw [divCheck_ok (lenQ_ne_zero h), ok_bind, divCheck_ok (lenQ_ne_zero h)]

theorem convBlock_c_ok (d : List Row) : convBlock_c d = .ok () := by
  apply unit_ok
  apply foldlM_ok_of
  intro b base hb
  dsimp only
  split
  · rfl
  · next hcond =>
    rw [Bool.or_eq_true, not_or] at hcond
    rw [getRates_div_ok (not_isEmpty_false hcond.1), ok_bind,
      getRates_div_ok (not_isEmpty_false hcond.2)]
    rfl

theorem popBlock_c_ok (d : List Row) : popBlock_c d = .ok () := by
  unfold popBlock_c
  dsimp only
  split
  · rfl
  · apply unit_ok
    apply foldlM_ok_of
    intro b p hp
    dsimp only
    split
    · rfl
    · next hcond => exact divCheck_isOk (lenQ_ne_zero (not_isEmpty_false hcond))

theorem summaryPrint_c_ok (files : List (Str × Str)) (exps : Dict (List Row × Md)) :
    summaryPrint_c files exps = .ok () := by
  apply unit_ok
  apply foldlM_ok_of
  intro b name hn
  dsimp only
  split
  · exact divCheck_isOk (by norm_num)
  · rfl

theorem ablGroups_spec {rows : List Row}
    (h : ∀ r ∈ rows, 2 ≤ (splitCh '_' r.experiment).length) :
    ∃ gs, ablGroups rows = .ok gs ∧ ∀ p ∈ gs, p.2 ≠ [] := by
  have hok : (ablGroups rows).isOk = true := by
    apply foldlM_ok_of
    intro acc r hr
    cases hg : pyGet (splitCh '_' r.experiment) 1 with
    | error e =>
      have := pyGet_one_ok (h r hr)
      rw [hg] at this
      exact absurd this (by simp [Except.isOk, Except.toBool])
    | ok m => rfl
  rcases isOk_iff.mp hok with ⟨gs, hgs⟩
  refine ⟨gs, hgs, ?_⟩
  refine foldlM_inv _ (fun gs => ∀ p ∈ gs, p.2 ≠ []) ?_ rows [] gs (by simp) hgs
  intro acc r gs' hstep hacc
  cases hg : pyGet (splitCh '_' r.experiment) 1 with
  | error e => rw [hg] at hstep; exact absurd hstep (by simp)
  | ok m =>
    rw [hg] at hstep
    simp only [Except.ok.injEq] at hstep
    rw [← hstep]
    exact groupAppend_preserves acc m r hacc

theorem ablFold_ok (gs : List (Str × List Row)) (total : ℕ) (htot : 0 < total)
    (hne : ∀ p ∈ gs, p.2 ≠ []) :
    ∃ t', ((sortStrs (gs.map Prod.fst)).foldlM (fun _ k => do
        let _ ← divCheck ((countStates (groupRows gs k) 3 : ℚ)) (((groupRows gs k).length : ℚ))
        let _ ← divCheck ((countStates (groupRows gs k) 2 : ℚ)) (((groupRows gs k).length : ℚ))
        (Except.ok (groupRows gs k).length : Except PyErr ℕ)) total) = .ok t' ∧ 0 < t' := by
  have hgrp : ∀ k ∈ sortStrs (gs.map Prod.fst), (((groupRows gs k).length : ℚ)) ≠ 0 := by
    intro k hk
    have hkm : k ∈ gs.map Prod.fst := mem_sortStrs.mp hk
    have hgr : groupRows gs k ≠ [] := groupRows_ne_nil hne hkm
    refine lenQ_ne_zero ?_
    revert hgr
    cases hE : (groupRows gs k).isEmpty
    · simp
    · simp [List.isEmpty_iff.mp hE]
  have hok : (((sortStrs (gs.map Prod.fst)).foldlM (fun _ k => do
      let _ ← divCheck ((countStates (groupRows gs k) 3 : ℚ)) (((groupRows gs k).length : ℚ))
      let _ ← divCheck ((countStates (groupRows gs k) 2 : ℚ)) (((groupRows gs k).length : ℚ))
      (Except.ok (groupRows gs k).length : Except PyErr ℕ)) total)).isOk = true := by
    apply foldlM_ok_of
    intro b k hk
    dsimp only
    rw [divCheck_ok (hgrp k hk), ok_bind, divCheck_ok (hgrp k hk), ok_bind]
    rfl
  rcases isOk_iff.mp hok with ⟨t', ht'⟩
  refine ⟨t', ht', ?_⟩
  refine foldlM_inv _ (fun t => 0 < t) ?_ _ total t' htot ht'
  intro b k b' hstep hb
  dsimp only at hstep
  cases hd1 : divCheck ((countStates (groupRows gs k) 3 : ℚ))
      (((groupRows gs k).length : ℚ)) with
  | error e => rw [hd1, error_bind] at hstep; exact absurd hstep (by simp)
  | ok u =>
    rw [hd1, ok_bind] at hstep
    cases hd2 : divCheck ((countStates (groupRows gs k) 2 : ℚ))
        (((groupRows gs k).length : ℚ)) with
    | error e => rw [hd2, error_bind] at hstep; exact absurd hstep (by simp)
    | ok v =>
      rw [hd2, ok_bind] at hstep
      simp only [Except.ok.injEq] at hstep
      rw [← hstep]
      have hlq : (((groupRows gs k).length : ℚ)) ≠ 0 := by
        intro h0
        unfold divCheck pydiv at hd2
        rw [if_pos h0] at hd2
        simp at hd2
      have hgr : groupRows gs k ≠ [] := by
        intro h0
        exact hlq (by rw [h0]; rfl)
      exact List.length_pos.mpr hgr

theorem ablBlock_c_ok (d : List Row) (total : ℕ) (htot : 0 < total) :
    ∃ t', ablBlock_c d total = .ok t' ∧ 0 < t' := by
  unfold ablBlock_c
  dsimp only
  split
  · exact ⟨total, rfl, htot⟩
  · have hsplit : ∀ r ∈ d.filter (fun r => hasSub r.experiment (str "ablation_")),
        2 ≤ (splitCh '_' r.experiment).length := by
      intro r hr
      have hh := (List.mem_filter.mp hr).2
      exact splitCh_length_two (mem_of_hasSub hh (by decide))
    rcases ablGroups_spec hsplit with ⟨gs, hgs, hne⟩
    simp only [hgs]
    exact ablFold_ok gs total htot hne

theorem stateLoop_f_ok {sc : List (ℤ × ℕ)} {total : ℕ} (h : total ≠ 0) :
    stateLoop_f sc total = .ok () := by
  apply unit_ok
  apply foldlM_ok_of
  intro b k hk
  exact divCheck_isOk (by exact_mod_cast h)

theorem h1Block_f_ok (d : List Row) : h1Block_f d = .ok () := by
  apply unit_ok
  apply foldlM_ok_of
  intro b opt hopt
  dsimp only
  split
  · rfl
  · next h2 =>
    have hne := lenQ_ne_zero (not_isEmpty_false h2)
    rw [divCheck_ok hne, ok_bind, divCheck_ok hne]
    rfl

theorem h3Block_f_ok (d : List Row) : h3Block_f d = .ok () := by
  unfold h3Block_f
  dsimp only
  split
  · rfl
  · apply unit_ok
    apply foldlM_ok_of
    intro b opt hopt
    dsimp only
    split
    · rfl
    · next h2 => exact divCheck_isOk (lenQ_ne_zero (not_isEmpty_false h2))

theorem h5Block_f_ok (d : List Row) : h5Block_f d = .ok () := by
  unfold h5Block_f
  dsimp only
  split
  · rfl
  · apply unit_ok
    apply foldlM_ok_of
    intro b fit hfit
    dsimp only
    split
    · rfl
    · next h2 => exact divCheck_isOk (lenQ_ne_zero (not_isEmpty_false h2))

theorem emBlock_f_ok (d : List Row) : emBlock_f d = .ok () := by
  apply unit_ok
  apply foldlM_ok_of
  intro b em hem
  dsimp only
  split
  · rfl
  · next h2 => exact divCheck_isOk (lenQ_ne_zero (not_isEmpty_false h2))

theorem agg_c_spec : ∀ (files : List (Str × Str)) (A : List Row) (E : Dict (List Row × Md))
    (res : List Row × Dict (List Row × Md)),
    files.foldlM aggStep_c (A, E) = .ok res →
    res.1 = A ++ files.flatMap fileRows_c ∧
      ∀ f ∈ files, (parse_csv_rows_from_log_c f.2).isOk = true := by
  intro files
  induction files with
  | nil =>
    intro A E res h
    simp only [List.foldlM, pure, Except.pure, Except.ok.injEq] at h
    rw [← h]
    simp
  | cons f fs ih =>
    intro A E res h
    simp only [List.foldlM] at h
    cases hs : aggStep_c (A, E) f with
    | error e => rw [hs, error_bind] at h; exact absurd h (by simp)
    | ok acc1 =>
      rw [hs, ok_bind] at h
      unfold aggStep_c at hs
      cases hp : parse_csv_rows_from_log_c f.2 with
      | error e => rw [hp] at hs; exact absurd hs (by simp)
      | ok rm =>
        rw [hp] at hs
        simp only [Except.ok.injEq] at hs
        have hfr : fileRows_c f = rm.1.map (fun r => { r with experiment := stem f.1 }) := by
          unfold fileRows_c
          simp only [hp]
        have h1 := ih acc1.1 acc1.2 res (by rw [Prod.mk.eta] at *; exact h)
        constructor
        · rw [h1.1, ← hs]
          simp only [List.flatMap_cons, hfr]
          simp [List.append_assoc]
        · intro g hg
          rcases List.mem_cons.mp hg with rfl | hg'
          · rw [hp]; rfl
          · exact h1.2 g hg'

theorem agg_c_ok (files : List (Str × Str)) (A : List Row) (E : Dict (List Row × Md))
    (h : ∀ f ∈ files, (parse_csv_rows_from_log_c f.2).isOk = true) :
    (files.foldlM aggStep_c (A, E)).isOk = true := by
  apply foldlM_ok_of
  intro b f hf
  rcases isOk_iff.mp (h f hf) with ⟨rm, hrm⟩
  unfold aggStep_c
  rw [hrm]
  rfl

theorem agg_c_full (files : List (Str × Str))
    (h : ∀ f ∈ files, (parse_csv_rows_from_log_c f.2).isOk = true) :
    ∃ E', files.foldlM aggStep_c ([], []) = .ok (files.flatMap fileRows_c, E') := by
  rcases isOk_iff.mp (agg_c_ok files [] [] h) with ⟨res, hres⟩
  have hspec := agg_c_spec files [] [] res hres
  refine ⟨res.2, ?_⟩
  rw [hres]
  have : res.1 = files.flatMap fileRows_c := by rw [hspec.1]; simp
  rw [← this]

theorem agg_f_spec : ∀ (files : List (Str × Str)) (A : List Row) (E : Dict (List Row × Md))
    (res : List Row × Dict (List Row × Md)),
    files.foldlM aggStep_f (A, E) = .ok res →
    res.1 = A ++ files.flatMap fileRows_f ∧
      ∀ f ∈ files, (parse_csv_rows_from_log_f f.2).isOk = true := by
  intro files
  induction files with
  | nil =>
    intro A E res h
    simp only [List.foldlM, pure, Except.pure, Except.ok.injEq] at h
    rw [← h]
    simp
  | cons f fs ih =>
    intro A E res h
    simp only [List.foldlM] at h
    cases hs : aggStep_f (A, E) f with
    | error e => rw [hs, error_bind] at h; exact absurd h (by simp)
    | ok acc1 =>
      rw [hs, ok_bind] at h
      unfold aggStep_f at hs
      cases hp : parse_csv_rows_from_log_f f.2 with
      | error e => rw [hp] at hs; exact absurd hs (by simp)
      | ok rm =>
        rw [hp] at hs
        simp only [Except.ok.injEq] at hs
        have hfr : fileRows_f f = rm.1.map (fun r => { r with
            experiment := stem f.1,
            optimizer := dictGet rm.2 (str "optimizer") (.s (str "ga")),
            fitness := dictGet rm.2 (str "fitness") (.s (str "task")),
            energy_model := dictGet rm.2 (str "energy_model") (.s (str "base")) }) := by
          unfold fileRows_f
          simp only [hp]
        have h1 := ih acc1.1 acc1.2 res (by rw [Prod.mk.eta] at *; exact h)
        constructor
        · rw [h1.1, ← hs]
          simp only [List.flatMap_cons, hfr]
          simp [List.append_assoc]
        · intro g hg
          rcases List.mem_cons.mp hg with rfl | hg'
          · rw [hp]; rfl
          · exact h1.2 g hg'

theorem agg_f_ok (files : List (Str × Str)) (A : List Row) (E : Dict (List Row × Md))
    (h : ∀ f ∈ files, (parse_csv_rows_from_log_f f.2).isOk = true) :
    (files.foldlM aggStep_f (A, E)).isOk = true := by
  apply foldlM_ok_of
  intro b f hf
  rcases isOk_iff.mp (h f hf) with ⟨rm, hrm⟩
  unfold aggStep_f
  rw [hrm]
  rfl

theorem agg_f_full (files : List (Str × Str))
    (h : ∀ f ∈ files, (parse_csv_rows_from_log_f f.2).isOk = true) :
    ∃ E', files.foldlM aggStep_f ([], []) = .ok (files.flatMap fileRows_f, E') := by
  rcases isOk_iff.mp (agg_f_ok files [] [] h) with ⟨res, hres⟩
  have hspec := agg_f_spec files [] [] res hres
  refine ⟨res.2, ?_⟩
  rw [hres]
  have : res.1 = files.flatMap fileRows_f := by rw [hspec.1]; simp
  rw [← this]

theorem length_cast_ne_zero {l : List Row} (h : l ≠ []) : ((l.length : ℚ)) ≠ 0 := by
  refine lenQ_ne_zero ?_
  exact List.isEmpty_eq_false.mpr h

theorem analyze_results_ok (files : List (Str × Str))
    (hparse : ∀ f ∈ files, (parse_csv_rows_from_log_c f.2).isOk = true)
    (hcons : ∃ r ∈ files.flatMap fileRows_c, r.consensus.isSome = true) :
    (analyze_results files).isOk = true := by
  rcases hcons with ⟨r0, hr0, hc0⟩
  have hfilesne : files ≠ [] := by
    intro h0
    rw [h0] at hr0
    simp at hr0
  obtain ⟨E', hagg⟩ := agg_c_full files hparse
  have hadne : files.flatMap fileRows_c ≠ [] := List.ne_nil_of_mem hr0
  have hflt : (files.flatMap fileRows_c).filter (fun r => r.consensus.isSome) ≠ [] :=
    List.ne_nil_of_mem (List.mem_filter.mpr ⟨hr0, hc0⟩)
  have h1 : ((((files.flatMap fileRows_c).filter (fun r => r.consensus.isSome)).length : ℚ)) ≠ 0 :=
    length_cast_ne_zero hflt
  have hlen0 : (files.flatMap fileRows_c).length ≠ 0 := by
    intro h0
    exact hadne (List.length_eq_zero.mp h0)
  have h2 : (((files.flatMap fileRows_c).length : ℚ)) ≠ 0 := by exact_mod_cast hlen0
  have htot2 : 0 < (if ((files.flatMap fileRows_c).filter (fun r =>
      hasSub r.experiment (str "cont_base") && decide (r.sigma = Rat.divInt 1 10))).isEmpty = true
      then (files.flatMap fileRows_c).length
      else h2_last_total ((files.flatMap fileRows_c).filter (fun r =>
        hasSub r.experiment (str "cont_base") && decide (r.sigma = Rat.divInt 1 10)))
        (files.flatMap fileRows_c).length) := by
    split
    · exact Nat.pos_of_ne_zero hlen0
    · next hcb =>
      exact h2_last_total_pos (not_isEmpty_false hcb) _
  obtain ⟨t', habl, hpos⟩ := ablBlock_c_ok (files.flatMap fileRows_c) _ htot2
  have hq : ((t' : ℚ)) ≠ 0 := by
    have := Nat.pos_iff_ne_zero.mp hpos
    exact_mod_cast this
  unfold analyze_results
  rw [if_neg (by rw [List.isEmpty_eq_false.mpr hfilesne]; simp)]
  simp only [hagg]
  rw [if_neg (by rw [List.isEmpty_eq_false.mpr hadne]; simp)]
  simp only [divCheck_ok h1, ok_bind, stateLoop_c_ok hlen0, divCheck_ok h2, h1Block_c_ok,
    h3Block_c_ok, convBlock_c_ok, popBlock_c_ok, habl, summaryPrint_c_ok, pydiv_ok hq]
  rfl

theorem analyze_final_results_ok (files : List (Str × Str))
    (hparse : ∀ f ∈ files, (parse_csv_rows_from_log_f f.2).isOk = true)
    (hcons : ∃ r ∈ files.flatMap fileRows_f, r.consensus.isSome = true)
    (hcont : ∃ r ∈ files.flatMap fileRows_f, hasSub r.experiment (str "cont_") = true)
    (hdisc : ∃ r ∈ files.flatMap fileRows_f, hasSub r.experiment (str "discrete_") = true)
    (hbin : ∃ r ∈ files.flatMap fileRows_f, hasSub r.experiment (str "binary_") = true) :
    (analyze_final_results files).isOk = true := by
  rcases hcons with ⟨r0, hr0, hc0⟩
  rcases hcont with ⟨r1, hr1, hc1⟩
  rcases hdisc with ⟨r2, hr2, hc2⟩
  rcases hbin with ⟨r3, hr3, hc3⟩
  have hfilesne : files ≠ [] := by
    intro h0
    rw [h0] at hr0
    simp at hr0
  obtain ⟨E', hagg⟩ := agg_f_full files hparse
  have hadne : files.flatMap fileRows_f ≠ [] := List.ne_nil_of_mem hr0
  have h1 : ((((files.flatMap fileRows_f).filter (fun r => r.consensus.isSome)).length : ℚ)) ≠ 0 :=
    length_cast_ne_zero (List.ne_nil_of_mem (List.mem_filter.mpr ⟨hr0, hc0⟩))
  have hlen0 : (files.flatMap fileRows_f).length ≠ 0 := by
    intro h0
    exact hadne (List.length_eq_zero.mp h0)
  have hqc : ((((files.flatMap fileRows_f).filter (fun r =>
      hasSub r.experiment (str "cont_"))).length : ℚ)) ≠ 0 :=
    length_cast_ne_zero (List.ne_nil_of_mem (List.mem_filter.mpr ⟨hr1, hc1⟩))
  have hqd : ((((files.flatMap fileRows_f).filter (fun r =>
      hasSub r.experiment (str "discrete_"))).length : ℚ)) ≠ 0 :=
    length_cast_ne_zero (List.ne_nil_of_mem (List.mem_filter.mpr ⟨hr2, hc2⟩))
  have hqb : ((((files.flatMap fileRows_f).filter (fun r =>
      hasSub r.experiment (str "binary_"))).length : ℚ)) ≠ 0 :=
    length_cast_ne_zero (List.ne_nil_of_mem (List.mem_filter.mpr ⟨hr3, hc3⟩))
  unfold analyze_final_results
  rw [if_neg (by rw [List.isEmpty_eq_false.mpr hfilesne]; simp)]
  simp only [hagg]
  rw [if_neg (by rw [List.isEmpty_eq_false.mpr hadne]; simp)]
  simp only [divCheck_ok h1, ok_bind, stateLoop_f_ok hlen0, h1Block_f_ok, h3Block_f_ok,
    h5Block_f_ok, emBlock_f_ok, pydiv_ok hqc, pydiv_ok hqd, pydiv_ok hqb]
  rfl

theorem analyze_results_report {files : List (Str × Str)} {S : SummaryC}
    (h : analyze_results files = .ok (.report S)) :
    S.total_experiments = files.length ∧
    S.total_combinations = (files.flatMap fileRows_c).length := by
  unfold analyze_results at h
  split at h
  · exact absurd h (by simp)
  · split at h
    · exact absurd h (by simp)
    · next agg heq =>
      have hspec := agg_c_spec files [] [] agg heq
      have hrows : agg.1 = files.flatMap fileRows_c := by rw [hspec.1]; simp
      dsimp only at h
      split at h
      · exact absurd h (by simp)
      · cases hd1 : divCheck ((sumTrials agg.1 : ℚ))
            (((agg.1.filter (fun r => r.consensus.isSome)).length : ℚ)) with
        | error e => rw [hd1, error_bind] at h; exact absurd h (by simp)
        | ok u1 =>
          rw [hd1, ok_bind] at h
          cases hd2 : stateLoop_c (orderedCounter (agg.1.map Row.n_states)) agg.1.length with
          | error e => rw [hd2, error_bind] at h; exact absurd h (by simp)
          | ok u2 =>
            rw [hd2, ok_bind] at h
            cases hd3 : divCheck (100 * (((agg.1.filter (fun r => r.hysteresis)).length : ℚ)))
                ((agg.1.length : ℚ)) with
            | error e => rw [hd3, error_bind] at h; exact absurd h (by simp)
            | ok u3 =>
              rw [hd3, ok_bind] at h
              cases hd4 : h1Block_c agg.1 with
              | error e => rw [hd4, error_bind] at h; exact absurd h (by simp)
              | ok u4 =>
                rw [hd4, ok_bind] at h
                cases hd5 : h3Block_c agg.1 with
                | error e => rw [hd5, error_bind] at h; exact absurd h (by simp)
                | ok u5 =>
                  rw [hd5, ok_bind] at h
                  cases hd6 : convBlock_c agg.1 with
                  | error e => rw [hd6, error_bind] at h; exact absurd h (by simp)
                  | ok u6 =>
                    rw [hd6, ok_bind] at h
                    cases hd7 : popBlock_c agg.1 with
                    | error e => rw [hd7, error_bind] at h; exact absurd h (by simp)
                    | ok u7 =>
                      rw [hd7, ok_bind] at h
                      cases hd8 : ablBlock_c agg.1
                          (if ((agg.1.filter (fun r => hasSub r.experiment (str "cont_base") &&
                              decide (r.sigma = Rat.divInt 1 10))).isEmpty = true)
                            then agg.1.length
                            else h2_last_total (agg.1.filter (fun r =>
                              hasSub r.experiment (str "cont_base") &&
                              decide (r.sigma = Rat.divInt 1 10))) agg.1.length) with
                      | error e => rw [hd8, error_bind] at h; exact absurd h (by simp)
                      | ok t' =>
                        rw [hd8, ok_bind] at h
                        cases hd9 : summaryPrint_c files agg.2 with
                        | error e => rw [hd9, error_bind] at h; exact absurd h (by simp)
                        | ok u9 =>
                          rw [hd9, ok_bind] at h
                          split at h
                          · exact absurd h (by simp)
                          · simp only [Except.ok.injEq, OutcomeC.report.injEq] at h
                            rw [← h, ← hrows]
                            exact ⟨rfl, rfl⟩

/-- C6 (amended): every rate division inside the hypothesis blocks is guarded
by a non-empty filter, but the average-seeds division (line 103 resp. 115)
divides by the number of rows carrying a consensus pair, and the final
variant's conclusion rates (lines 222-224) divide by the number of `cont_`,
`discrete_` and `binary_` rows, all unguarded.  When every file parses, some
parsed row carries a consensus pair and (for the final variant) each of those
three categories is inhabited, no exception propagates out of either analysis
function. -/
theorem analysis_no_exception (fsC fsF : List (Str × Str))
    (hparseC : ∀ f ∈ fsC, (parse_csv_rows_from_log_c f.2).isOk = true)
    (hconsC : ∃ r ∈ fsC.flatMap fileRows_c, r.consensus.isSome = true)
    (hparseF : ∀ f ∈ fsF, (parse_csv_rows_from_log_f f.2).isOk = true)
    (hconsF : ∃ r ∈ fsF.flatMap fileRows_f, r.consensus.isSome = true)
    (hcont : ∃ r ∈ fsF.flatMap fileRows_f, hasSub r.experiment (str "cont_") = true)
    (hdisc : ∃ r ∈ fsF.flatMap fileRows_f, hasSub r.experiment (str "discrete_") = true)
    (hbin : ∃ r ∈ fsF.flatMap fileRows_f, hasSub r.experiment (str "binary_") = true) :
    (analyze_results fsC).isOk = true ∧ (analyze_final_results fsF).isOk = true :=
  ⟨analyze_results_ok fsC hparseC hconsC,
   analyze_final_results_ok fsF hparseF hconsF hcont hdisc hbin⟩

/-- Witness for the amended C6 at concrete single-row log files. -/
theorem analysis_no_exception_witness :
    (analyze_results [(str "x.log", str "CSV_ROW,1,1,1,3,(1/2)")]).isOk = true ∧
    (analyze_final_results [(str "cont_a.log", str "CSV_ROW,1,1,1,3,(1/2)"),
      (str "discrete_b.log", str "CSV_ROW,1,1,1,3,(1/2)"),
      (str "binary_c.log", str "CSV_ROW,1,1,1,2,(1/2)")]).isOk = true :=
  analysis_no_exception
    [(str "x.log", str "CSV_ROW,1,1,1,3,(1/2)")]
    [(str "cont_a.log", str "CSV_ROW,1,1,1,3,(1/2)"),
      (str "discrete_b.log", str "CSV_ROW,1,1,1,3,(1/2)"),
      (str "binary_c.log", str "CSV_ROW,1,1,1,2,(1/2)")]
    (by decide) (by decide) (by decide) (by decide) (by decide) (by decide) (by decide)

/-- Counterexample to C6 as stated: with one log file whose single data row
parses but carries no consensus pair, the average-seeds computation (line 103
of `comprehensive_analysis.py`, line 115 of `final_analysis.py`) divides by
zero and the `ZeroDivisionError` propagates out of the analysis function. -/
theorem unguarded_average_seeds_division :
    analyze_results [(str "x.log", str "CSV_ROW,1,1,1,3,end")] = .error .zeroDivisionError ∧
    analyze_final_results [(str "x.log", str "CSV_ROW,1,1,1,3,end")] =
      .error .zeroDivisionError ∧
    parse_csv_rows_from_log_c (str "CSV_ROW,1,1,1,3,end") =
      .ok ([{ sigma := 1
              energy_zero := 1
              energy_abs1 := 1
              n_states := 3
              hysteresis := false
              consensus := none }], []) := by
  decide

/-- C8 (amended): with no files the pipeline prints "No log files found" and
returns before any aggregation; with files that all parse *without raising*
but yield zero data rows it prints "No valid data found" and returns; in both
cases no summary JSON is written and no report section is produced (the
`noFiles`/`noData` outcomes). -/
theorem no_files_or_no_rows_early_return :
    analyze_results [] = .ok .noFiles ∧
    analyze_final_results [] = .ok .noFiles ∧
    (∀ fs : List (Str × Str), fs ≠ [] →
      (∀ f ∈ fs, ∃ md : Md, parse_csv_rows_from_log_c f.2 = .ok ([], md)) →
      analyze_results fs = .ok .noData) ∧
    (∀ fs : List (Str × Str), fs ≠ [] →
      (∀ f ∈ fs, ∃ md : Md, parse_csv_rows_from_log_f f.2 = .ok ([], md)) →
      analyze_final_results fs = .ok .noData) := by
  refine ⟨rfl, rfl, ?_, ?_⟩
  · intro fs hne hp
    have hok : ∀ f ∈ fs, (parse_csv_rows_from_log_c f.2).isOk = true := by
      intro f hf
      rcases hp f hf with ⟨md, hmd⟩
      rw [hmd]
      rfl
    obtain ⟨E', hagg⟩ := agg_c_full fs hok
    have hnil : fs.flatMap fileRows_c = [] := by
      rw [List.flatMap_eq_nil_iff]
      intro f hf
      rcases hp f hf with ⟨md, hmd⟩
      unfold fileRows_c
      simp only [hmd]
      rfl
    unfold analyze_results
    rw [if_neg (by rw [List.isEmpty_eq_false.mpr hne]; simp)]
    simp only [hagg, hnil]
    rfl
  · intro fs hne hp
    have hok : ∀ f ∈ fs, (parse_csv_rows_from_log_f f.2).isOk = true := by
      intro f hf
      rcases hp f hf with ⟨md, hmd⟩
      rw [hmd]
      rfl
    obtain ⟨E', hagg⟩ := agg_f_full fs hok
    have hnil : fs.flatMap fileRows_f = [] := by
      rw [List.flatMap_eq_nil_iff]
      intro f hf
      rcases hp f hf with ⟨md, hmd⟩
      unfold fileRows_f
      simp only [hmd]
      rfl
    unfold analyze_final_results
    rw [if_neg (by rw [List.isEmpty_eq_false.mpr hne]; simp)]
    simp only [hagg, hnil]
    rfl

/-- Witness for the amended C8 at a one-file input with no data rows. -/
theorem no_files_or_no_rows_early_return_witness :
    analyze_results [(str "a.log", str "hello")] = .ok .noData ∧
    analyze_final_results [(str "a.log", str "hello")] = .ok .noData := by
  constructor
  · refine no_files_or_no_rows_early_return.2.2.1 [(str "a.log", str "hello")]
      (by decide) ?_
    intro f hf
    rw [List.mem_singleton.mp hf]
    exact ⟨[], by decide⟩
  · refine no_files_or_no_rows_early_return.2.2.2 [(str "a.log", str "hello")]
      (by decide) ?_
    intro f hf
    rw [List.mem_singleton.mp hf]
    exact ⟨[], by decide⟩

/-- Counterexample to C8 as stated: a run with one file and zero parsed data
rows need not terminate gracefully — a malformed `# ... Seeds:` line makes
both pipelines raise `ValueError` instead of printing the diagnostic and
returning early. -/
theorem zero_rows_crash_instead_of_graceful_return :
    analyze_results [(str "a.log", str "# Seeds: x")] = .error .valueError ∧
    analyze_final_results [(str "a.log", str "# Seeds: x")] = .error .valueError ∧
    analyze_results [(str "a.log", str "# Seeds: x")] ≠ .ok .noData := by
  decide

/-- C7 (amended): the pipeline is a pure function of the glob enumeration
order, and the numeric totals of the summary are order-invariant; but the
key order of the `experiments` (and `state_distribution`) JSON objects
follows the enumeration order — nothing sorts it — so byte-for-byte identical
JSON is guaranteed only for identical enumeration orders. -/
theorem summary_totals_glob_order_invariant (fs1 fs2 : List (Str × Str)) (S1 S2 : SummaryC)
    (hperm : fs1.Perm fs2)
    (h1 : analyze_results fs1 = .ok (.report S1))
    (h2 : analyze_results fs2 = .ok (.report S2)) :
    S1.total_experiments = S2.total_experiments ∧
    S1.total_combinations = S2.total_combinations := by
  obtain ⟨e1, c1⟩ := analyze_results_report h1
  obtain ⟨e2, c2⟩ := analyze_results_report h2
  refine ⟨?_, ?_⟩
  · rw [e1, e2, hperm.length_eq]
  · rw [c1, c2, List.length_flatMap, List.length_flatMap]
    exact List.Perm.sum_eq (hperm.map _)

/-- Witness for the amended C7 at the two-file inputs in both orders. -/
theorem summary_totals_glob_order_invariant_witness :
    summaryAB.total_experiments = summaryBA.total_experiments ∧
    summaryAB.total_combinations = summaryBA.total_combinations :=
  summary_totals_glob_order_invariant [logA, logB] [logB, logA] summaryAB summaryBA
    (List.Perm.swap logB logA []) (by decide) (by decide)

/-- Counterexample to C7 as stated: over the same two-file set, the two glob
enumeration orders produce different summary objects (the `experiments` and
`state_distribution` key orders differ), so the serialised JSON is not
byte-for-byte identical and is not normalised by sorting. -/
theorem summary_json_depends_on_glob_order :
    analyze_results [logA, logB] = .ok (.report summaryAB) ∧
    analyze_results [logB, logA] = .ok (.report summaryBA) ∧
    summaryAB ≠ summaryBA ∧
    [logB, logA].Perm [logA, logB] :=
  ⟨by decide, by decide, by decide, List.Perm.swap logA logB []⟩
